import Mathlib

/-!
Verification of the recurrence-generation and delivery-queue engine in
`src/scheduler.ts` (the "Reminder" repository).

Modelling conventions:
* A JavaScript `Date` is modelled as its epoch value in milliseconds, an `Int`.
  The spec declares timezone-aware computation and DST transitions out of scope,
  so local wall-clock time coincides with the linear ms timeline here: midnight
  boundaries are exact multiples of 86400000 ms.
* JS numbers that the source treats as integers are modelled as `Int`
  (`Math.floor`/`Math.round` are the identity on integers; the non-finite escape
  hatches of the normalizers are noted at each definition).
* Optional parameters (`maxCount`, `horizonHours`, `daysOfWeek`, `dayOfMonth`)
  are modelled as `Option`; `??` becomes `Option.getD`.
* `while` loops become fuel-indexed structural recursions.  Every fuel argument
  supplied by a wrapper strictly exceeds the number of iterations the JS loop
  can perform (each bound is justified in a comment at its wrapper), so the
  fuelled function agrees with the source loop; all universally quantified
  theorems below are proved for arbitrary fuel.
-/

namespace Scheduler

/-! ### Calendar model (the proleptic Gregorian calendar implemented by JS `Date`) -/

/-- Gregorian leap-year test. -/
def isLeap (y : Int) : Bool := (y % 4 == 0 && y % 100 != 0) || y % 400 == 0

/-- Number of leap years `x` with `x < y` counted from a fixed reference
(the constant offset cancels in `daysBeforeYear`). -/
def leapsUpto (y : Int) : Int := (y - 1) / 4 - (y - 1) / 100 + (y - 1) / 400

/-- Day number (days since 1970-01-01) of January 1 of year `y`;
`leapsUpto 1970 = 477`. -/
def daysBeforeYear (y : Int) : Int := 365 * (y - 1970) + (leapsUpto y - 477)

/-- Length of a (non-)leap year. -/
def yearLength : Bool → Int
  | true => 366
  | false => 365

/-- Length of month `m` (0-based, January = 0) in a (non-)leap year. -/
def daysInMonthT : Bool → Int → Int
  | true, m =>
    if m = 0 then 31 else if m = 1 then 29 else if m = 2 then 31
    else if m = 3 then 30 else if m = 4 then 31 else if m = 5 then 30 else if m = 6 then 31
    else if m = 7 then 31 else if m = 8 then 30 else if m = 9 then 31 else if m = 10 then 30
    else 31
  | false, m =>
    if m = 0 then 31 else if m = 1 then 28 else if m = 2 then 31
    else if m = 3 then 30 else if m = 4 then 31 else if m = 5 then 30 else if m = 6 then 31
    else if m = 7 then 31 else if m = 8 then 30 else if m = 9 then 31 else if m = 10 then 30
    else 31

/-- Days before month `m` (0-based) within a year. -/
def daysBeforeMonth : Bool → Int → Int
  | true, m =>
    if m ≤ 0 then 0 else if m = 1 then 31 else if m = 2 then 60 else if m = 3 then 91
    else if m = 4 then 121 else if m = 5 then 152 else if m = 6 then 182
    else if m = 7 then 213 else if m = 8 then 244 else if m = 9 then 274
    else if m = 10 then 305 else 335
  | false, m =>
    if m ≤ 0 then 0 else if m = 1 then 31 else if m = 2 then 59 else if m = 3 then 90
    else if m = 4 then 120 else if m = 5 then 151 else if m = 6 then 181
    else if m = 7 then 212 else if m = 8 then 243 else if m = 9 then 273
    else if m = 10 then 304 else 334

/-- Day number of the civil date `(y, m, d)` with `m` 0-based in `[0, 11]`. -/
def daysFromCivil (y m d : Int) : Int :=
  daysBeforeYear y + daysBeforeMonth (isLeap y) m + (d - 1)

/-- Day number of JS `new Date(y, m, d)` at midnight: the month is normalized into
`[0, 11]` carrying into the year, and out-of-range `d` rolls over exactly as in JS. -/
def mkDateDays (y m d : Int) : Int := daysFromCivil (y + m / 12) (m % 12) d

/-- Epoch milliseconds of JS `new Date(y, m, d)` at local midnight. -/
def mkDatems (y m d : Int) : Int := 86400000 * mkDateDays y m d

/-- Bounded linear search for the year containing day number `z`
(`yearSearch` advances while the next year still starts on or before `z`). -/
def yearSearch (z : Int) : Nat → Int → Int
  | 0, y => y
  | fuel + 1, y => if daysBeforeYear (y + 1) ≤ z then yearSearch z fuel (y + 1) else y

/-- The year containing day number `z`.  The start estimate is within two years
below the true year (146097 days = 400 Gregorian years), so fuel 8 suffices;
this is proved, not assumed, in `yearFromDays_eq`. -/
def yearFromDays (z : Int) : Int := yearSearch z 8 (1970 + 400 * z / 146097 - 2)

/-- Month (0-based) containing day-of-year `doy` (thresholds are the
`daysBeforeMonth` values). -/
def monthFromDoy : Bool → Int → Int
  | true, doy =>
    if doy < 31 then 0 else if doy < 60 then 1 else if doy < 91 then 2 else if doy < 121 then 3
    else if doy < 152 then 4 else if doy < 182 then 5 else if doy < 213 then 6
    else if doy < 244 then 7 else if doy < 274 then 8 else if doy < 305 then 9
    else if doy < 335 then 10 else 11
  | false, doy =>
    if doy < 31 then 0 else if doy < 59 then 1 else if doy < 90 then 2 else if doy < 120 then 3
    else if doy < 151 then 4 else if doy < 181 then 5 else if doy < 212 then 6
    else if doy < 243 then 7 else if doy < 273 then 8 else if doy < 304 then 9
    else if doy < 334 then 10 else 11

/-- Civil date `(year, month, day)` (month 0-based) of day number `z`. -/
def civilFromDays (z : Int) : Int × Int × Int :=
  let y := yearFromDays z
  let doy := z - daysBeforeYear y
  let m := monthFromDoy (isLeap y) doy
  (y, m, doy - daysBeforeMonth (isLeap y) m + 1)

/-- JS `date.getFullYear()`. -/
def getFullYear (t : Int) : Int := (civilFromDays (t / 86400000)).1

/-- JS `date.getMonth()` (0-based). -/
def getMonth (t : Int) : Int := (civilFromDays (t / 86400000)).2.1

/-- JS `date.getDate()` (1-based day of month). -/
def getDate (t : Int) : Int := (civilFromDays (t / 86400000)).2.2

/-- JS `date.getDay()`: 0 = Sunday … 6 = Saturday; 1970-01-01 was a Thursday. -/
def getDay (t : Int) : Int := (t / 86400000 + 4) % 7

/-! ### Date helpers of `scheduler.ts` -/

/-- `startOfDay`: `setHours(0, 0, 0, 0)`, i.e. local midnight of `t`'s day. -/
def startOfDay (t : Int) : Int := t - t % 86400000

/-- `dateAtMinutes`: `startOfDay` then `setMinutes(minutes)` (hours are zero, so JS
normalization adds exactly `minutes` minutes to midnight, for any integer). -/
def dateAtMinutes (t minutes : Int) : Int := startOfDay t + minutes * 60000

/-- `addMinutes`. -/
def addMinutes (t minutes : Int) : Int := t + minutes * 60000

/-- `addDays`: `setDate(getDate() + days)`; with DST out of scope this is a shift
by whole days. -/
def addDays (t days : Int) : Int := t + days * 86400000

/-- `addMonths`: `setMonth(getMonth() + months)` keeps the day-of-month and
time-of-day and renormalizes the month (JS rolls an overflowing day of month
into the next month, which `mkDatems` reproduces). -/
def addMonths (t months : Int) : Int :=
  mkDatems (getFullYear t) (getMonth t + months) (getDate t) + t % 86400000

/-- `getDaysInMonth`: `new Date(year, monthIndex + 1, 0).getDate()`. -/
def getDaysInMonth (year monthIndex : Int) : Int :=
  getDate (mkDatems year (monthIndex + 1) 0)

/-- `minutesSinceMidnight`: `getHours() * 60 + getMinutes()`, i.e. the whole
minutes elapsed since local midnight. -/
def minutesSinceMidnight (t : Int) : Int := t % 86400000 / 60000

/-! ### Normalizers and constants of `scheduler.ts` -/

def MIN_INTERVAL : Int := 5
def MAX_INTERVAL : Int := 180
def DEFAULT_DAYS : List Bool := [true, true, true, true, true, true, true]
def DEFAULT_DAY_OF_MONTH : Int := 1

/-- `normalizeDaysOfWeek`: a missing or wrong-length mask becomes "every day". -/
def normalizeDaysOfWeek (value : Option (List Bool)) : List Bool :=
  match value with
  | none => DEFAULT_DAYS
  | some v => if v.length ≠ 7 then DEFAULT_DAYS else v

/-- `isDayActive`: JS `getDay` (Sunday = 0) is rotated to the Monday-first mask
index; an out-of-range index reads `undefined`, i.e. `false` (`List.getD`). -/
def isDayActive (t : Int) (daysOfWeek : List Bool) : Bool :=
  let day := getDay t
  let index := if day = 0 then 6 else day - 1
  daysOfWeek.getD index.toNat false

/-- `normalizeDayOfMonth`: `none` models a missing (or non-finite) value;
`Math.round` is the identity on integers. -/
def normalizeDayOfMonth (value : Option Int) : Int :=
  match value with
  | none => DEFAULT_DAY_OF_MONTH
  | some v => if v < 1 then 1 else if v > 31 then 31 else v

/-- `normalizeMinutes`: `Math.floor(value) % 1440` (JS truncating `%`) followed by
the `+ 1440` fix-up for negatives is exactly the Euclidean remainder, which is
what `%` denotes on `Int`; a non-finite value becomes 0 (not representable here). -/
def normalizeMinutes (value : Int) : Int := value % 1440

/-- `clamp` (`Math.min(max, Math.max(min, value))`; non-finite becomes `min`,
not representable here). -/
def clamp (value mn mx : Int) : Int := min mx (max mn value)

/-! ### Window model -/

/-- `isWithinWindow`. -/
def isWithinWindow (t startMinutes endMinutes : Int) (spansMidnight : Bool) : Bool :=
  let timeMinutes := minutesSinceMidnight t
  if !spansMidnight then
    decide (startMinutes ≤ timeMinutes) && decide (timeMinutes < endMinutes)
  else
    decide (startMinutes ≤ timeMinutes) || decide (timeMinutes < endMinutes)

/-- `nextWindowStart`. -/
def nextWindowStart (t startMinutes endMinutes : Int) (spansMidnight : Bool) : Int :=
  let timeMinutes := minutesSinceMidnight t
  let todayStart := dateAtMinutes t startMinutes
  if !spansMidnight then
    (if timeMinutes < startMinutes then todayStart else addDays todayStart 1)
  else if endMinutes ≤ timeMinutes ∧ timeMinutes < startMinutes then todayStart
  else addDays todayStart 1

/-- The `{start, end}` record returned by `windowFor`. -/
structure Window where
  start : Int
  «end» : Int
deriving DecidableEq

/-- `windowFor`. -/
def windowFor (t startMinutes endMinutes : Int) (spansMidnight : Bool) : Window :=
  let timeMinutes := minutesSinceMidnight t
  let todayStart := dateAtMinutes t startMinutes
  if !spansMidnight then
    { start := todayStart, «end» := dateAtMinutes t endMinutes }
  else if startMinutes ≤ timeMinutes then
    { start := todayStart, «end» := dateAtMinutes (addDays todayStart 1) endMinutes }
  else
    { start := dateAtMinutes (addDays todayStart (-1)) startMinutes
      «end» := dateAtMinutes t endMinutes }

/-- `alignToInterval`: JS `%` on the nonnegative `diffMinutes` by the positive
interval agrees with the Euclidean `%` used here. -/
def alignToInterval (windowStart cursor intervalMinutes : Int) : Int :=
  let diffMinutes := max 0 ((cursor - windowStart) / 60000)
  let remainder := diffMinutes % intervalMinutes
  let delta := if remainder = 0 then 0 else intervalMinutes - remainder
  addMinutes cursor delta

/-! ### Input records -/

structure ScheduleInput where
  now : Int
  intervalMinutes : Int
  startMinutesFromMidnight : Int
  endMinutesFromMidnight : Int
  daysOfWeek : Option (List Bool)
  maxCount : Option Nat
  horizonHours : Option Int
deriving DecidableEq

structure FixedTimeInput where
  now : Int
  timeMinutes : Int
  daysOfWeek : Option (List Bool)
  maxCount : Option Nat
  horizonHours : Option Int
deriving DecidableEq

structure MonthlyInput where
  now : Int
  timeMinutes : Int
  dayOfMonth : Int
  maxCount : Option Nat
  horizonHours : Option Int
deriving DecidableEq

structure FallbackInput where
  now : Int
  intervalMinutes : Int
  startMinutes : Int
  endMinutes : Int
  daysOfWeek : List Bool
  maxCount : Nat
  horizonHours : Int
deriving DecidableEq

/-- Modelled from the spec: `ScheduleType` is imported by `scheduler.ts` from
`storage.ts` but its declaration is not among the provided sources; the spec
(§ Design notes) fixes it as the closed variant
`WithinDay | Daily | Weekly | Monthly`. -/
inductive ScheduleType where
  | withinDay
  | daily
  | weekly
  | monthly
deriving DecidableEq

structure ScheduleRule where
  id : String
  type : ScheduleType
  intervalMinutes : Int
  startMinutesFromMidnight : Int
  endMinutesFromMidnight : Int
  message : String
  daysOfWeek : Option (List Bool)
  dayOfMonth : Option Int
deriving DecidableEq

structure ScheduledNotification where
  scheduleId : String
  date : Int
  message : String
deriving DecidableEq

structure QueueInput where
  now : Int
  schedules : List ScheduleRule
  maxCount : Option Nat
  horizonHours : Option Int
deriving DecidableEq

/-! ### The generators -/

/-- Inner `while` of the bounded-window branch of `generateFireDates`:
steps `candidate` by the interval while it is before the window end, within the
horizon, and the budget is not exhausted.  Iterations are bounded by
(window length)/interval + 1 ≤ 2880/5 + 1 < 600, the fuel its caller passes. -/
def innerWindowLoop (now horizon interval : Int) (activeDays : List Bool) (wEnd : Int) :
    Nat → Nat → Int → List Int
  | 0, _, _ => []
  | fuel + 1, remaining, candidate =>
    if candidate < wEnd ∧ candidate ≤ horizon ∧ 0 < remaining then
      if now < candidate ∧ isDayActive candidate activeDays then
        candidate ::
          innerWindowLoop now horizon interval activeDays wEnd fuel (remaining - 1)
            (addMinutes candidate interval)
      else
        innerWindowLoop now horizon interval activeDays wEnd fuel remaining
          (addMinutes candidate interval)
    else []

/-- Outer `while` of `generateFireDates`. -/
def fireLoop (now horizon interval startMinutes endMinutes : Int) (activeDays : List Bool)
    (allDay spansMidnight : Bool) : Nat → Nat → Int → List Int
  | 0, _, _ => []
  | fuel + 1, remaining, cursor =>
    if 0 < remaining ∧ cursor ≤ horizon then
      if allDay then
        let windowStart := startOfDay cursor
        let c0 := alignToInterval windowStart cursor interval
        let candidate := if c0 ≤ now then addMinutes c0 interval else c0
        if horizon < candidate then []
        else if isDayActive candidate activeDays then
          candidate ::
            fireLoop now horizon interval startMinutes endMinutes activeDays allDay
              spansMidnight fuel (remaining - 1) (addMinutes candidate interval)
        else
          fireLoop now horizon interval startMinutes endMinutes activeDays allDay
            spansMidnight fuel remaining (addMinutes candidate interval)
      else
        let jump := !isWithinWindow cursor startMinutes endMinutes spansMidnight
        let ns := nextWindowStart cursor startMinutes endMinutes spansMidnight
        if jump ∧ horizon < ns then []
        else
          let cur := if jump then ns else cursor
          let w := windowFor cur startMinutes endMinutes spansMidnight
          let pushed :=
            innerWindowLoop now horizon interval activeDays w.«end» 600 remaining
              (alignToInterval w.start cur interval)
          pushed ++
            fireLoop now horizon interval startMinutes endMinutes activeDays allDay
              spansMidnight fuel (remaining - pushed.length) (addMinutes w.«end» 1)
    else []

/-- `while` of `generateFallbackDates`. -/
def fallbackLoop (horizon interval startMinutes endMinutes : Int) (daysOfWeek : List Bool)
    (allDay spansMidnight : Bool) : Nat → Nat → Int → List Int
  | 0, _, _ => []
  | fuel + 1, remaining, cursor =>
    if 0 < remaining ∧ cursor ≤ horizon then
      if (allDay || isWithinWindow cursor startMinutes endMinutes spansMidnight)
          && isDayActive cursor daysOfWeek then
        cursor ::
          fallbackLoop horizon interval startMinutes endMinutes daysOfWeek allDay
            spansMidnight fuel (remaining - 1) (addMinutes cursor interval)
      else
        fallbackLoop horizon interval startMinutes endMinutes daysOfWeek allDay
          spansMidnight fuel remaining (addMinutes cursor interval)
    else []

/-- `generateFallbackDates`: sweep from `now + intervalMinutes` (seconds and
milliseconds zeroed by `setSeconds(0, 0)`).  With interval ≥ 1 the loop runs at
most 60·horizonHours + 1 iterations, below the fuel passed here; the source only
invokes it with the clamped interval (≥ 5). -/
def generateFallbackDates (input : FallbackInput) : List Int :=
  let horizon := input.now + input.horizonHours * 60 * 60 * 1000
  let allDay := input.startMinutes == input.endMinutes
  let spansMidnight := decide (input.endMinutes < input.startMinutes)
  let c0 := addMinutes input.now input.intervalMinutes
  let cursor := c0 - c0 % 60000
  fallbackLoop horizon input.intervalMinutes input.startMinutes input.endMinutes
    input.daysOfWeek allDay spansMidnight (60 * input.horizonHours.toNat + 4)
    input.maxCount cursor

/-- `generateFireDates`.  Every outer iteration advances the cursor by at least
one minute (all-day: by the clamped interval; windowed: to one minute past a
window end that lies strictly beyond the cursor), so the loop runs at most
60·horizonHours + 2 iterations, below the fuel passed here. -/
def generateFireDates (input : ScheduleInput) : List Int :=
  let interval := clamp input.intervalMinutes MIN_INTERVAL MAX_INTERVAL
  let startMinutes := normalizeMinutes input.startMinutesFromMidnight
  let endMinutes := normalizeMinutes input.endMinutesFromMidnight
  let maxCount := input.maxCount.getD 50
  let horizonHours := input.horizonHours.getD 24
  let activeDays := normalizeDaysOfWeek input.daysOfWeek
  if !activeDays.any id then []
  else
    let now := input.now
    let horizon := now + horizonHours * 60 * 60 * 1000
    let allDay := startMinutes == endMinutes
    let spansMidnight := decide (endMinutes < startMinutes)
    let results :=
      fireLoop now horizon interval startMinutes endMinutes activeDays allDay spansMidnight
        (60 * horizonHours.toNat + 4) maxCount now
    if results = [] then
      generateFallbackDates
        ⟨now, interval, startMinutes, endMinutes, activeDays, maxCount, horizonHours⟩
    else results

/-- `while` of `generateFixedTimeDates`: one day per iteration. -/
def fixedLoop (now horizon timeMinutes : Int) (activeDays : List Bool) :
    Nat → Nat → Int → List Int
  | 0, _, _ => []
  | fuel + 1, remaining, cursor =>
    if 0 < remaining ∧ cursor ≤ horizon then
      let candidate := dateAtMinutes cursor timeMinutes
      if now < candidate ∧ candidate ≤ horizon ∧ isDayActive candidate activeDays then
        candidate ::
          fixedLoop now horizon timeMinutes activeDays fuel (remaining - 1) (addDays cursor 1)
      else fixedLoop now horizon timeMinutes activeDays fuel remaining (addDays cursor 1)
    else []

/-- `generateFixedTimeDates`.  The day cursor starts at `startOfDay now`, so the
loop runs at most horizonHours/24 + 2 iterations, below the fuel passed here. -/
def generateFixedTimeDates (input : FixedTimeInput) : List Int :=
  let maxCount := input.maxCount.getD 50
  let horizonHours := input.horizonHours.getD 24
  let now := input.now
  let horizon := now + horizonHours * 60 * 60 * 1000
  let activeDays := normalizeDaysOfWeek input.daysOfWeek
  if !activeDays.any id then []
  else fixedLoop now horizon input.timeMinutes activeDays (horizonHours.toNat + 3)
    maxCount (startOfDay now)

/-- `while` of `generateMonthlyDates`: one calendar month per iteration. -/
def monthlyLoop (now horizon timeMinutes dayOfMonth : Int) : Nat → Nat → Int → List Int
  | 0, _, _ => []
  | fuel + 1, remaining, cursor =>
    if 0 < remaining ∧ cursor ≤ horizon then
      let year := getFullYear cursor
      let month := getMonth cursor
      let daysInThisMonth := getDaysInMonth year month
      let clampedDay := min dayOfMonth daysInThisMonth
      let candidate := dateAtMinutes (mkDatems year month clampedDay) timeMinutes
      if now < candidate ∧ candidate ≤ horizon then
        candidate ::
          monthlyLoop now horizon timeMinutes dayOfMonth fuel (remaining - 1)
            (addMonths cursor 1)
      else monthlyLoop now horizon timeMinutes dayOfMonth fuel remaining (addMonths cursor 1)
    else []

/-- `generateMonthlyDates`.  The month cursor starts at the first of `now`'s
month, ≥ 28 days apart, so the loop runs far fewer than horizonHours + 3
iterations, the fuel passed here. -/
def generateMonthlyDates (input : MonthlyInput) : List Int :=
  let maxCount := input.maxCount.getD 50
  let horizonHours := input.horizonHours.getD 24
  let now := input.now
  let horizon := now + horizonHours * 60 * 60 * 1000
  let dayOfMonth := normalizeDayOfMonth (some input.dayOfMonth)
  monthlyLoop now horizon input.timeMinutes dayOfMonth (horizonHours.toNat + 3) maxCount
    (mkDatems (getFullYear now) (getMonth now) 1)

/-! ### The queue builder -/

/-- Insertion into a date-sorted list strictly after every entry with an earlier
date and before the first entry with an equal or later date — the unique stable
position for the JS comparator `(a, b) => a.date.getTime() - b.date.getTime()`. -/
def insertByDate (nfn : ScheduledNotification) :
    List ScheduledNotification → List ScheduledNotification
  | [] => [nfn]
  | b :: l => if b.date < nfn.date then b :: insertByDate nfn l else nfn :: b :: l

/-- Stable sort by date.  `Array.prototype.sort` is specified (ES2019) to be
stable, and a stable sort is uniquely determined by its comparator, so this
insertion sort computes exactly the list the source's `combined.sort(...)`
produces; sortedness, permutation and stability are proved below. -/
def sortByDate (l : List ScheduledNotification) : List ScheduledNotification :=
  l.foldr insertByDate []

/-- The per-rule dispatch inside `buildNotificationQueue`'s `for` loop. -/
def datesForSchedule (now : Int) (maxCount : Nat) (horizonHours : Int)
    (schedule : ScheduleRule) : List Int :=
  match schedule.type with
  | .withinDay =>
    generateFireDates
      ⟨now, schedule.intervalMinutes, schedule.startMinutesFromMidnight,
        schedule.endMinutesFromMidnight, schedule.daysOfWeek, some maxCount,
        some horizonHours⟩
  | .daily =>
    generateFixedTimeDates
      ⟨now, schedule.startMinutesFromMidnight, schedule.daysOfWeek, some maxCount,
        some horizonHours⟩
  | .weekly =>
    generateFixedTimeDates
      ⟨now, schedule.startMinutesFromMidnight, schedule.daysOfWeek, some maxCount,
        some horizonHours⟩
  | .monthly =>
    generateMonthlyDates
      ⟨now, schedule.startMinutesFromMidnight, normalizeDayOfMonth schedule.dayOfMonth,
        some maxCount, some horizonHours⟩

/-- `buildNotificationQueue`: tag, concatenate in input order, stable-sort by
date, truncate to `maxCount` (`slice(0, maxCount)`). -/
def buildNotificationQueue (input : QueueInput) : List ScheduledNotification :=
  let maxCount := input.maxCount.getD 50
  let horizonHours := input.horizonHours.getD 24
  let now := input.now
  let combined := input.schedules.flatMap fun schedule =>
    (datesForSchedule now maxCount horizonHours schedule).map fun date =>
      { scheduleId := schedule.id, date := date, message := schedule.message }
  (sortByDate combined).take maxCount

/-! ### Spec-side forms used by the verification -/

/-- The fire instant the spec prescribes for the month `(y, m)`: day
`min(dayOfMonth, daysInThatMonth)` at `timeMinutes` past midnight. -/
def monthCandidate (timeMinutes dayOfMonth y m : Int) : Int :=
  dateAtMinutes (mkDatems y m (min dayOfMonth (daysInMonthT (isLeap y) m))) timeMinutes

/-- The calendar month `k` months after `(y, m)`, month normalized into `[0, 11]`. -/
def monthIndexAfter (y m : Int) (k : Nat) : Int × Int :=
  (y + (m + (k : Int)) / 12, (m + (k : Int)) % 12)

/-- The spec's description of the monthly generator: enumerate months from
`(y, m)` onwards, emit each month's candidate iff it lies in `(now, horizon]`,
and keep the first `maxCount`. -/
def specMonthlyList (now horizon timeMinutes dayOfMonth y m : Int)
    (fuel maxCount : Nat) : List Int :=
  ((List.range fuel).filterMap fun k =>
    let p := monthIndexAfter y m k
    let c := monthCandidate timeMinutes dayOfMonth p.1 p.2
    if now < c ∧ c ≤ horizon then some c else none).take maxCount

/-- The spec's description of the fallback sweep: start at `now + interval` with
sub-minute precision discarded, step by the interval, and emit each instant that
is within the horizon, inside the nominal window (or all-day), and on an active
weekday, keeping the first `maxCount`. -/
def specFallbackList (now horizon interval startMinutes endMinutes : Int)
    (daysOfWeek : List Bool) (fuel maxCount : Nat) : List Int :=
  ((List.range fuel).filterMap fun k : Nat =>
    let c := (addMinutes now interval - addMinutes now interval % 60000) +
      (k : Int) * (interval * 60000)
    if c ≤ horizon ∧
        (((startMinutes == endMinutes) ||
          isWithinWindow c startMinutes endMinutes (decide (endMinutes < startMinutes)))
          && isDayActive c daysOfWeek) = true then
      some c
    else none).take maxCount

end Scheduler

namespace Scheduler

/-! ### Calendar correctness -/

/-- Propositional form of the leap test. -/
theorem isLeap_iff (y : Int) :
    isLeap y = true ↔ ((y % 4 = 0 ∧ ¬ y % 100 = 0) ∨ y % 400 = 0) := by
  unfold isLeap
  simp only [Bool.or_eq_true, Bool.and_eq_true, beq_iff_eq, bne_iff_ne, ne_eq]

/-- One year adds 365 or 366 days according to the leap test. -/
theorem daysBeforeYear_succ (y : Int) :
    daysBeforeYear (y + 1) = daysBeforeYear y + yearLength (isLeap y) := by
  cases hL : isLeap y
  · have h : ¬((y % 4 = 0 ∧ ¬ y % 100 = 0) ∨ y % 400 = 0) := by
      rw [← isLeap_iff, hL]; simp
    simp only [yearLength, daysBeforeYear, leapsUpto]
    omega
  · have h : ((y % 4 = 0 ∧ ¬ y % 100 = 0) ∨ y % 400 = 0) := by
      rw [← isLeap_iff, hL]
    simp only [yearLength, daysBeforeYear, leapsUpto]
    omega

/-- `daysBeforeYear` is monotone. -/
theorem daysBeforeYear_mono {a b : Int} (h : a ≤ b) :
    daysBeforeYear a ≤ daysBeforeYear b := by
  simp only [daysBeforeYear, leapsUpto]; omega

/-- `monthFromDoy` always lands in `[0, 11]`. -/
theorem monthFromDoy_range (L : Bool) (doy : Int) :
    0 ≤ monthFromDoy L doy ∧ monthFromDoy L doy ≤ 11 := by
  cases L <;> (simp only [monthFromDoy]; omega)

/-- Month lengths are at least 28. -/
theorem daysInMonthT_pos (L : Bool) (m : Int) : 28 ≤ daysInMonthT L m := by
  cases L <;> (simp only [daysInMonthT]; omega)

/-- Cumulative month offsets step by the month length. -/
theorem daysBeforeMonth_succ (L : Bool) (m : Int) (h0 : 0 ≤ m) (h1 : m ≤ 10) :
    daysBeforeMonth L (m + 1) = daysBeforeMonth L m + daysInMonthT L m := by
  cases L <;> (simp only [daysBeforeMonth, daysInMonthT]; omega)

/-- A full year of months sums to the year length. -/
theorem daysBeforeMonth_last (L : Bool) :
    daysBeforeMonth L 11 + daysInMonthT L 11 = yearLength L := by
  cases L <;> decide

/-- Day-of-year offsets of valid civil dates lie inside the year. -/
theorem daysBeforeMonth_add_lt (L : Bool) (m d : Int) (h0 : 0 ≤ m) (h1 : m ≤ 11)
    (hd1 : 1 ≤ d) (hd2 : d ≤ daysInMonthT L m) :
    0 ≤ daysBeforeMonth L m + (d - 1) ∧
      daysBeforeMonth L m + (d - 1) < yearLength L := by
  cases L <;>
    (simp only [daysInMonthT] at hd2; simp only [daysBeforeMonth, yearLength]; omega)

/-- `monthFromDoy` inverts `daysBeforeMonth` on valid day-of-year offsets. -/
theorem monthFromDoy_eq (L : Bool) (m d : Int) (h0 : 0 ≤ m) (h1 : m ≤ 11)
    (hd1 : 1 ≤ d) (hd2 : d ≤ daysInMonthT L m) :
    monthFromDoy L (daysBeforeMonth L m + (d - 1)) = m := by
  cases L <;>
    (simp only [daysInMonthT] at hd2; simp only [monthFromDoy, daysBeforeMonth]; omega)

/-- The bounded year search is correct when given enough fuel. -/
theorem yearSearch_spec (z : Int) : ∀ (fuel : Nat) (y : Int),
    daysBeforeYear y ≤ z → z < daysBeforeYear (y + fuel) →
    daysBeforeYear (yearSearch z fuel y) ≤ z ∧
      z < daysBeforeYear (yearSearch z fuel y + 1) := by
  intro fuel
  induction fuel with
  | zero =>
    intro y h1 h2
    rw [Nat.cast_zero, add_zero] at h2
    omega
  | succ n ih =>
    intro y h1 h2
    rw [yearSearch]
    split
    · rename_i hle
      refine ih (y + 1) hle ?_
      push_cast at h2 ⊢
      have harg : y + ((n : Int) + 1) = y + 1 + (n : Int) := by ring
      rw [harg] at h2
      exact h2
    · rename_i hgt
      exact ⟨h1, by omega⟩

/-- The search start estimate is at most the true year. -/
theorem yearStart_le (z : Int) : daysBeforeYear (1970 + 400 * z / 146097 - 2) ≤ z := by
  simp only [daysBeforeYear, leapsUpto]; omega

/-- Six years above the estimate is past `z`. -/
theorem yearStart_lt (z : Int) : z < daysBeforeYear (1970 + 400 * z / 146097 + 6) := by
  simp only [daysBeforeYear, leapsUpto]; omega

/-- `yearFromDays` recovers the year of any in-year day offset. -/
theorem yearFromDays_eq (y r : Int) (h0 : 0 ≤ r) (h1 : r < yearLength (isLeap y)) :
    yearFromDays (daysBeforeYear y + r) = y := by
  set z := daysBeforeYear y + r with hz
  have hy1 : daysBeforeYear y ≤ z := by omega
  have hy2 : z < daysBeforeYear (y + 1) := by rw [daysBeforeYear_succ]; omega
  have hstart := yearStart_le z
  have hstop := yearStart_lt z
  have h8 : (1970 + 400 * z / 146097 - 2) + ((8 : Nat) : Int) =
      1970 + 400 * z / 146097 + 6 := by push_cast; ring
  have hspec := yearSearch_spec z 8 (1970 + 400 * z / 146097 - 2) hstart
    (by rw [h8]; exact hstop)
  unfold yearFromDays
  set w := yearSearch z 8 (1970 + 400 * z / 146097 - 2) with hw
  rcases hspec with ⟨hw1, hw2⟩
  by_contra hne
  rcases lt_or_gt_of_ne hne with hlt | hgt
  · have : daysBeforeYear (w + 1) ≤ daysBeforeYear y := daysBeforeYear_mono (by omega)
    omega
  · have : daysBeforeYear (y + 1) ≤ daysBeforeYear w := daysBeforeYear_mono (by omega)
    omega

/-- Full round trip: `civilFromDays` inverts `daysFromCivil` on valid dates. -/
theorem civilFromDays_daysFromCivil (y m d : Int) (h0 : 0 ≤ m) (h1 : m ≤ 11)
    (hd1 : 1 ≤ d) (hd2 : d ≤ daysInMonthT (isLeap y) m) :
    civilFromDays (daysFromCivil y m d) = (y, m, d) := by
  have hr := daysBeforeMonth_add_lt (isLeap y) m d h0 h1 hd1 hd2
  have heq : daysFromCivil y m d =
      daysBeforeYear y + (daysBeforeMonth (isLeap y) m + (d - 1)) := by
    simp only [daysFromCivil]; ring
  have hy : yearFromDays (daysFromCivil y m d) = y := by
    rw [heq]
    exact yearFromDays_eq y _ hr.1 hr.2
  have hm := monthFromDoy_eq (isLeap y) m d h0 h1 hd1 hd2
  simp only [civilFromDays, hy]
  have hdoy : daysFromCivil y m d - daysBeforeYear y =
      daysBeforeMonth (isLeap y) m + (d - 1) := by
    rw [heq]; ring
  rw [hdoy, hm]
  simp only [Prod.mk.injEq, true_and]
  omega

end Scheduler
namespace Scheduler

/-! ### Derived component facts -/

/-- `mkDateDays` does nothing to a month already in `[0, 11]`. -/
theorem mkDateDays_eq (y m d : Int) (h0 : 0 ≤ m) (h1 : m ≤ 11) :
    mkDateDays y m d = daysFromCivil y m d := by
  have hm1 : m / 12 = 0 := by omega
  have hm2 : m % 12 = m := by omega
  rw [mkDateDays, hm1, hm2, add_zero]

/-- Constructed midnights sit on a day boundary. -/
theorem mkDatems_emod (y m d : Int) : mkDatems y m d % 86400000 = 0 := by
  rw [mkDatems]; omega

/-- Component round trip at the millisecond level, for any time of day. -/
theorem civilFromDays_mk (y m d tod : Int) (h0 : 0 ≤ m) (h1 : m ≤ 11)
    (hd1 : 1 ≤ d) (hd2 : d ≤ daysInMonthT (isLeap y) m)
    (ht0 : 0 ≤ tod) (ht1 : tod < 86400000) :
    civilFromDays ((mkDatems y m d + tod) / 86400000) = (y, m, d) := by
  have hdiv : (mkDatems y m d + tod) / 86400000 = mkDateDays y m d := by
    rw [mkDatems]; omega
  rw [hdiv, mkDateDays_eq y m d h0 h1]
  exact civilFromDays_daysFromCivil y m d h0 h1 hd1 hd2

theorem getFullYear_mk (y m d tod : Int) (h0 : 0 ≤ m) (h1 : m ≤ 11)
    (hd1 : 1 ≤ d) (hd2 : d ≤ daysInMonthT (isLeap y) m)
    (ht0 : 0 ≤ tod) (ht1 : tod < 86400000) :
    getFullYear (mkDatems y m d + tod) = y := by
  rw [getFullYear, civilFromDays_mk y m d tod h0 h1 hd1 hd2 ht0 ht1]

theorem getMonth_mk (y m d tod : Int) (h0 : 0 ≤ m) (h1 : m ≤ 11)
    (hd1 : 1 ≤ d) (hd2 : d ≤ daysInMonthT (isLeap y) m)
    (ht0 : 0 ≤ tod) (ht1 : tod < 86400000) :
    getMonth (mkDatems y m d + tod) = m := by
  rw [getMonth, civilFromDays_mk y m d tod h0 h1 hd1 hd2 ht0 ht1]

theorem getDate_mk (y m d tod : Int) (h0 : 0 ≤ m) (h1 : m ≤ 11)
    (hd1 : 1 ≤ d) (hd2 : d ≤ daysInMonthT (isLeap y) m)
    (ht0 : 0 ≤ tod) (ht1 : tod < 86400000) :
    getDate (mkDatems y m d + tod) = d := by
  rw [getDate, civilFromDays_mk y m d tod h0 h1 hd1 hd2 ht0 ht1]

/-- December has 31 days in both tables. -/
theorem daysInMonthT_eleven (L : Bool) : daysInMonthT L 11 = 31 := by
  cases L <;> decide

/-- The JS `new Date(y, m + 1, 0).getDate()` idiom really computes the length of
month `m`. -/
theorem getDaysInMonth_eq (y m : Int) (h0 : 0 ≤ m) (h1 : m ≤ 11) :
    getDaysInMonth y m = daysInMonthT (isLeap y) m := by
  rw [getDaysInMonth]
  rcases lt_or_ge m 11 with hm | hm
  · have hstep := daysBeforeMonth_succ (isLeap y) m h0 (by omega)
    have hmk : mkDateDays y (m + 1) 0 = daysFromCivil y m (daysInMonthT (isLeap y) m) := by
      rw [mkDateDays_eq y (m + 1) 0 (by omega) (by omega)]
      simp only [daysFromCivil]
      rw [hstep]; ring
    have h28 := daysInMonthT_pos (isLeap y) m
    have : getDate (mkDatems y (m + 1) 0) =
        getDate (mkDatems y m (daysInMonthT (isLeap y) m) + 0) := by
      rw [mkDatems, mkDatems, hmk, mkDateDays_eq y m _ h0 h1, add_zero]
    rw [this, getDate_mk y m _ 0 h0 h1 (by omega) le_rfl le_rfl (by norm_num)]
  · have hm11 : m = 11 := by omega
    subst hm11
    have h1112 : (11 : Int) + 1 = 12 := by norm_num
    rw [h1112]
    have hlast := daysBeforeMonth_last (isLeap y)
    have h31 := daysInMonthT_eleven (isLeap y)
    have hmk : mkDateDays y 12 0 = daysFromCivil y 11 31 := by
      have h12a : (12 : Int) / 12 = 1 := by norm_num
      have h12b : (12 : Int) % 12 = 0 := by norm_num
      rw [mkDateDays, h12a, h12b]
      simp only [daysFromCivil]
      rw [daysBeforeYear_succ]
      have hz2 : daysBeforeMonth (isLeap (y + 1)) 0 = 0 := by
        cases hc : isLeap (y + 1) <;> simp [daysBeforeMonth]
      omega
    have : getDate (mkDatems y 12 0) = getDate (mkDatems y 11 31 + 0) := by
      rw [mkDatems, mkDatems, hmk, mkDateDays_eq y 11 31 (by norm_num) (by norm_num),
        add_zero]
    rw [this, getDate_mk y 11 31 0 (by norm_num) (by norm_num) (by norm_num)
      (by rw [h31]) le_rfl (by norm_num), h31]

/-- `new Date(y, 12, d)` is `new Date(y + 1, 0, d)`. -/
theorem mkDatems_twelve (y d : Int) : mkDatems y 12 d = mkDatems (y + 1) 0 d := by
  have h12a : (12 : Int) / 12 = 1 := by norm_num
  have h12b : (12 : Int) % 12 = 0 := by norm_num
  rw [mkDatems, mkDatems, mkDateDays, h12a, h12b,
    mkDateDays_eq (y + 1) 0 d (by norm_num) (by norm_num)]

/-- `addMonths` moves a first-of-month midnight to the next first-of-month. -/
theorem addMonths_one (y m : Int) (h0 : 0 ≤ m) (h1 : m ≤ 11) :
    addMonths (mkDatems y m 1) 1 = mkDatems y (m + 1) 1 := by
  have h28 := daysInMonthT_pos (isLeap y) m
  have hy := getFullYear_mk y m 1 0 h0 h1 le_rfl (by omega) le_rfl (by norm_num)
  have hm := getMonth_mk y m 1 0 h0 h1 le_rfl (by omega) le_rfl (by norm_num)
  have hd := getDate_mk y m 1 0 h0 h1 le_rfl (by omega) le_rfl (by norm_num)
  rw [add_zero] at hy hm hd
  rw [addMonths, hy, hm, hd, mkDatems_emod, add_zero]

/-- Any date of a month precedes any date of the following month. -/
theorem daysFromCivil_lt_next (y m dd dd2 : Int) (h0 : 0 ≤ m) (h1 : m ≤ 10)
    (hdd : dd ≤ daysInMonthT (isLeap y) m) (hdd2 : 1 ≤ dd2) :
    daysFromCivil y m dd < daysFromCivil y (m + 1) dd2 := by
  have hstep := daysBeforeMonth_succ (isLeap y) m h0 h1
  simp only [daysFromCivil]
  omega

/-- Any date of December precedes any date of the next January. -/
theorem daysFromCivil_lt_year (y dd dd2 : Int)
    (hdd : dd ≤ daysInMonthT (isLeap y) 11) (hdd2 : 1 ≤ dd2) :
    daysFromCivil y 11 dd < daysFromCivil (y + 1) 0 dd2 := by
  have hlast := daysBeforeMonth_last (isLeap y)
  have hsucc := daysBeforeYear_succ y
  have hz2 : daysBeforeMonth (isLeap (y + 1)) 0 = 0 := by
    cases hc : isLeap (y + 1) <;> simp [daysBeforeMonth]
  simp only [daysFromCivil]
  omega

/-- Reading a mask whose entries are all `false` yields `false`. -/
theorem getD_all_false (l : List Bool) (h : ∀ b ∈ l, b = false) (n : Nat) :
    l.getD n false = false := by
  induction l generalizing n with
  | nil => cases n <;> rfl
  | cons a l ih =>
    cases n with
    | zero => exact h a (by simp)
    | succ k => exact ih (fun b hb => h b (by simp [hb])) k

end Scheduler
namespace Scheduler

/-! ### Normalizer ranges -/

theorem normalizeMinutes_range (v : Int) :
    0 ≤ normalizeMinutes v ∧ normalizeMinutes v < 1440 := by
  unfold normalizeMinutes; omega

theorem normalizeMinutes_idem (v : Int) :
    normalizeMinutes (normalizeMinutes v) = normalizeMinutes v := by
  unfold normalizeMinutes; omega

theorem clamp_interval_range (v : Int) :
    5 ≤ clamp v MIN_INTERVAL MAX_INTERVAL ∧ clamp v MIN_INTERVAL MAX_INTERVAL ≤ 180 := by
  unfold clamp MIN_INTERVAL MAX_INTERVAL
  constructor
  · exact le_min (by norm_num) (le_max_left _ _)
  · exact min_le_left _ _

theorem clamp_idem (v mn mx : Int) (h : mn ≤ mx) :
    clamp (clamp v mn mx) mn mx = clamp v mn mx := by
  unfold clamp
  rcases le_total v mn with hv | hv <;> rcases le_total v mx with hw | hw <;>
    simp [max_def, min_def] <;> omega

theorem normalizeDayOfMonth_range (v : Option Int) :
    1 ≤ normalizeDayOfMonth v ∧ normalizeDayOfMonth v ≤ 31 := by
  cases v with
  | none => simp [normalizeDayOfMonth, DEFAULT_DAY_OF_MONTH]
  | some x => simp only [normalizeDayOfMonth]; split_ifs <;> omega

theorem normalizeDayOfMonth_idem (v : Option Int) :
    normalizeDayOfMonth (some (normalizeDayOfMonth v)) = normalizeDayOfMonth v := by
  cases v with
  | none => decide
  | some x => simp only [normalizeDayOfMonth]; split_ifs <;> omega

/-! ### Fallback sweep: bounds, order, length -/

theorem fallbackLoop_props (horizon interval startMinutes endMinutes : Int)
    (daysOfWeek : List Bool) (allDay spansMidnight : Bool) (hivl : 0 < interval) :
    ∀ (fuel rem : Nat) (cursor : Int),
      (∀ t ∈ fallbackLoop horizon interval startMinutes endMinutes daysOfWeek allDay
          spansMidnight fuel rem cursor, cursor ≤ t ∧ t ≤ horizon) ∧
      List.Pairwise (· < ·)
        (fallbackLoop horizon interval startMinutes endMinutes daysOfWeek allDay
          spansMidnight fuel rem cursor) ∧
      (fallbackLoop horizon interval startMinutes endMinutes daysOfWeek allDay
          spansMidnight fuel rem cursor).length ≤ rem := by
  intro fuel
  induction fuel with
  | zero => intro rem cursor; simp [fallbackLoop]
  | succ n ih =>
    intro rem cursor
    have hstep : 0 < interval * 60000 := by omega
    rw [fallbackLoop]
    split
    · rename_i hcond
      split
      · rename_i hpush
        obtain ⟨ihb, ihs, ihl⟩ := ih (rem - 1) (addMinutes cursor interval)
        refine ⟨?_, ?_, ?_⟩
        · intro t ht
          rcases List.mem_cons.mp ht with rfl | ht
          · exact ⟨le_rfl, hcond.2⟩
          · have hb := ihb t ht
            have : cursor + interval * 60000 ≤ t := by
              simpa [addMinutes] using hb.1
            exact ⟨by omega, hb.2⟩
        · rw [List.pairwise_cons]
          refine ⟨?_, ihs⟩
          intro b hb
          have : cursor + interval * 60000 ≤ b := by
            simpa [addMinutes] using (ihb b hb).1
          omega
        · simp only [List.length_cons]
          omega
      · obtain ⟨ihb, ihs, ihl⟩ := ih rem (addMinutes cursor interval)
        refine ⟨?_, ihs, le_trans ihl le_rfl⟩
        intro t ht
        have hb := ihb t ht
        have : cursor + interval * 60000 ≤ t := by
          simpa [addMinutes] using hb.1
        exact ⟨by omega, hb.2⟩
    · simp

/-! ### Fixed-time generator: bounds, order, length -/

theorem dateAtMinutes_addDays (c T : Int) :
    dateAtMinutes (addDays c 1) T = dateAtMinutes c T + 86400000 := by
  simp only [dateAtMinutes, addDays, startOfDay]
  omega

theorem fixedLoop_props (now horizon timeMinutes : Int) (activeDays : List Bool) :
    ∀ (fuel rem : Nat) (cursor : Int),
      (∀ t ∈ fixedLoop now horizon timeMinutes activeDays fuel rem cursor,
        (now < t ∧ t ≤ horizon) ∧ dateAtMinutes cursor timeMinutes ≤ t) ∧
      List.Pairwise (· < ·) (fixedLoop now horizon timeMinutes activeDays fuel rem cursor) ∧
      (fixedLoop now horizon timeMinutes activeDays fuel rem cursor).length ≤ rem := by
  intro fuel
  induction fuel with
  | zero => intro rem cursor; simp [fixedLoop]
  | succ n ih =>
    intro rem cursor
    have hstep := dateAtMinutes_addDays cursor timeMinutes
    rw [fixedLoop]
    dsimp only
    split
    · rename_i hcond
      split
      · rename_i hpush
        obtain ⟨ihb, ihs, ihl⟩ := ih (rem - 1) (addDays cursor 1)
        refine ⟨?_, ?_, ?_⟩
        · intro t ht
          rcases List.mem_cons.mp ht with rfl | ht
          · exact ⟨⟨hpush.1, hpush.2.1⟩, le_rfl⟩
          · have hb := ihb t ht
            exact ⟨hb.1, by omega⟩
        · rw [List.pairwise_cons]
          refine ⟨?_, ihs⟩
          intro b hb
          have := (ihb b hb).2
          omega
        · simp only [List.length_cons]
          omega
      · obtain ⟨ihb, ihs, ihl⟩ := ih rem (addDays cursor 1)
        refine ⟨?_, ihs, ihl⟩
        intro t ht
        have hb := ihb t ht
        exact ⟨hb.1, by omega⟩
    · simp

end Scheduler

namespace Scheduler

/-! ### Window geometry -/

theorem alignToInterval_ge (w c ivl : Int) (h : 0 < ivl) : c ≤ alignToInterval w c ivl := by
  have h1 := Int.emod_nonneg (max 0 ((c - w) / 60000)) (by omega : ivl ≠ 0)
  have h2 := Int.emod_lt_of_pos (max 0 ((c - w) / 60000)) h
  simp only [alignToInterval, addMinutes]
  omega

theorem nextWindowStart_ge (t s e : Int) (spans : Bool)
    (hs0 : 0 ≤ s) (hs1 : s < 1440) (he0 : 0 ≤ e) (he1 : e < 1440)
    (hsp : spans = decide (e < s))
    (hout : isWithinWindow t s e spans = false) : t ≤ nextWindowStart t s e spans := by
  subst hsp
  rcases lt_or_ge e s with h | h
  · have hd : decide (e < s) = true := by simpa using h
    simp only [isWithinWindow, hd, Bool.not_true, if_false, Bool.or_eq_false_iff,
      decide_eq_false_iff_not, not_le, not_lt] at hout
    simp only [nextWindowStart, hd, Bool.not_true, if_false, dateAtMinutes, startOfDay,
      addDays, minutesSinceMidnight] at *
    omega
  · have hd : decide (e < s) = false := by simpa using h
    simp only [isWithinWindow, hd, Bool.not_false, if_true, Bool.and_eq_false_iff,
      decide_eq_false_iff_not, not_le, not_lt] at hout
    simp only [nextWindowStart, hd, Bool.not_false, if_true, dateAtMinutes, startOfDay,
      addDays, minutesSinceMidnight] at *
    omega

theorem msm_dateAtMinutes (t v : Int) (h0 : 0 ≤ v) (h1 : v < 1440) :
    minutesSinceMidnight (dateAtMinutes t v) = v := by
  simp only [minutesSinceMidnight, dateAtMinutes, startOfDay]
  omega

theorem msm_addDays (t k : Int) :
    minutesSinceMidnight (addDays t k) = minutesSinceMidnight t := by
  simp only [minutesSinceMidnight, addDays]
  omega

theorem isWithinWindow_iff (t s e : Int) (spans : Bool) (hsp : spans = decide (e < s)) :
    isWithinWindow t s e spans = true ↔
      ((e < s ∧ (s ≤ minutesSinceMidnight t ∨ minutesSinceMidnight t < e)) ∨
       (s ≤ e ∧ s ≤ minutesSinceMidnight t ∧ minutesSinceMidnight t < e)) := by
  subst hsp
  rcases lt_or_ge e s with h | h
  · have hd : decide (e < s) = true := by simpa using h
    rw [isWithinWindow, hd]
    simp only [Bool.not_true, Bool.false_eq_true, if_false, Bool.or_eq_true,
      decide_eq_true_eq]
    constructor
    · intro hx; exact Or.inl ⟨h, hx⟩
    · rintro (⟨-, hx⟩ | ⟨hse, hx, -⟩)
      · exact hx
      · omega
  · have hd : decide (e < s) = false := by simpa using h
    rw [isWithinWindow, hd]
    simp only [Bool.not_false, eq_self_iff_true, if_true, Bool.and_eq_true,
      decide_eq_true_eq]
    constructor
    · intro hx; exact Or.inr ⟨h, hx⟩
    · rintro (⟨hes, -⟩ | ⟨-, hx⟩)
      · omega
      · exact hx

theorem isWithinWindow_false_iff (t s e : Int) (spans : Bool)
    (hsp : spans = decide (e < s)) :
    isWithinWindow t s e spans = false ↔
      ¬((e < s ∧ (s ≤ minutesSinceMidnight t ∨ minutesSinceMidnight t < e)) ∨
        (s ≤ e ∧ s ≤ minutesSinceMidnight t ∧ minutesSinceMidnight t < e)) := by
  rw [← isWithinWindow_iff t s e spans hsp]
  simp

theorem msm_nextWindowStart (t s e : Int) (spans : Bool)
    (hs0 : 0 ≤ s) (hs1 : s < 1440) :
    minutesSinceMidnight (nextWindowStart t s e spans) = s := by
  rw [nextWindowStart]
  split
  · split
    · exact msm_dateAtMinutes t s hs0 hs1
    · rw [msm_addDays]; exact msm_dateAtMinutes t s hs0 hs1
  · split
    · exact msm_dateAtMinutes t s hs0 hs1
    · rw [msm_addDays]; exact msm_dateAtMinutes t s hs0 hs1

theorem nextWindowStart_within (t s e : Int) (spans : Bool)
    (hs0 : 0 ≤ s) (hs1 : s < 1440) (he0 : 0 ≤ e) (he1 : e < 1440)
    (hsp : spans = decide (e < s)) (hne : s ≠ e) :
    isWithinWindow (nextWindowStart t s e spans) s e spans = true := by
  rw [isWithinWindow_iff _ s e spans hsp, msm_nextWindowStart t s e spans hs0 hs1]
  omega

theorem windowFor_end_gt (t s e : Int) (spans : Bool)
    (hs0 : 0 ≤ s) (hs1 : s < 1440) (he0 : 0 ≤ e) (he1 : e < 1440)
    (hsp : spans = decide (e < s)) (hne : s ≠ e)
    (hin : isWithinWindow t s e spans = true) :
    t < (windowFor t s e spans).«end» := by
  rw [isWithinWindow_iff t s e spans hsp] at hin
  subst hsp
  rcases lt_or_ge e s with h | h
  · have hd : decide (e < s) = true := by simpa using h
    rw [hd, windowFor]
    simp only [Bool.not_true, if_false]
    rcases le_or_lt s (minutesSinceMidnight t) with hc | hc
    · rw [if_pos hc]
      show t < dateAtMinutes (addDays (dateAtMinutes t s) 1) e
      simp only [dateAtMinutes, startOfDay, addDays, minutesSinceMidnight] at *
      omega
    · rw [if_neg (not_le.mpr hc)]
      show t < dateAtMinutes t e
      simp only [dateAtMinutes, startOfDay, minutesSinceMidnight] at *
      omega
  · have hd : decide (e < s) = false := by simpa using h
    rw [hd, windowFor]
    simp only [Bool.not_false, if_true]
    show t < dateAtMinutes t e
    simp only [dateAtMinutes, startOfDay, minutesSinceMidnight] at *
    omega

end Scheduler
namespace Scheduler

/-! ### Within-day generator: bounds, order, length -/

theorem innerWindowLoop_props (now horizon interval : Int) (activeDays : List Bool)
    (wEnd : Int) (hivl : 0 < interval) :
    ∀ (fuel rem : Nat) (cand : Int),
      (∀ t ∈ innerWindowLoop now horizon interval activeDays wEnd fuel rem cand,
        (now < t ∧ t ≤ horizon) ∧ t < wEnd ∧ cand ≤ t) ∧
      List.Pairwise (· < ·)
        (innerWindowLoop now horizon interval activeDays wEnd fuel rem cand) ∧
      (innerWindowLoop now horizon interval activeDays wEnd fuel rem cand).length ≤ rem := by
  intro fuel
  induction fuel with
  | zero => intro rem cand; simp [innerWindowLoop]
  | succ n ih =>
    intro rem cand
    rw [innerWindowLoop]
    split
    · rename_i hcond
      split
      · rename_i hpush
        obtain ⟨ihb, ihs, ihl⟩ := ih (rem - 1) (addMinutes cand interval)
        refine ⟨?_, ?_, ?_⟩
        · intro t ht
          rcases List.mem_cons.mp ht with rfl | ht
          · exact ⟨⟨hpush.1, hcond.2.1⟩, hcond.1, le_rfl⟩
          · have hb := ihb t ht
            have hc : cand + interval * 60000 ≤ t := by
              simpa [addMinutes] using hb.2.2
            exact ⟨hb.1, hb.2.1, by omega⟩
        · rw [List.pairwise_cons]
          refine ⟨fun b hb => ?_, ihs⟩
          have hc : cand + interval * 60000 ≤ b := by
            simpa [addMinutes] using (ihb b hb).2.2
          omega
        · simp only [List.length_cons]; omega
      · obtain ⟨ihb, ihs, ihl⟩ := ih rem (addMinutes cand interval)
        refine ⟨?_, ihs, ihl⟩
        intro t ht
        have hb := ihb t ht
        have hc : cand + interval * 60000 ≤ t := by
          simpa [addMinutes] using hb.2.2
        exact ⟨hb.1, hb.2.1, by omega⟩
    · simp

theorem fireLoop_props (now horizon interval startMinutes endMinutes : Int)
    (activeDays : List Bool) (allDay spansMidnight : Bool)
    (hivl : 0 < interval)
    (hs0 : 0 ≤ startMinutes) (hs1 : startMinutes < 1440)
    (he0 : 0 ≤ endMinutes) (he1 : endMinutes < 1440)
    (hAD : allDay = (startMinutes == endMinutes))
    (hSP : spansMidnight = decide (endMinutes < startMinutes)) :
    ∀ (fuel rem : Nat) (cursor : Int), now ≤ cursor →
      (∀ t ∈ fireLoop now horizon interval startMinutes endMinutes activeDays allDay
          spansMidnight fuel rem cursor, (now < t ∧ t ≤ horizon) ∧ cursor ≤ t) ∧
      List.Pairwise (· < ·)
        (fireLoop now horizon interval startMinutes endMinutes activeDays allDay
          spansMidnight fuel rem cursor) ∧
      (fireLoop now horizon interval startMinutes endMinutes activeDays allDay
        spansMidnight fuel rem cursor).length ≤ rem := by
  intro fuel
  induction fuel with
  | zero => intro rem cursor hnc; simp [fireLoop]
  | succ n ih =>
    intro rem cursor hnc
    have hstep : 0 < interval * 60000 := by omega
    rw [fireLoop]
    dsimp only
    split
    · rename_i hcond
      split
      · -- all-day branch
        rename_i hallday
        have hc0 := alignToInterval_ge (startOfDay cursor) cursor interval hivl
        set c0 := alignToInterval (startOfDay cursor) cursor interval with hc0def
        set candidate : Int := if c0 ≤ now then addMinutes c0 interval else c0
          with hcanddef
        have hcand_gt : now < candidate := by
          rw [hcanddef]
          split
          · simp only [addMinutes]; omega
          · omega
        have hcand_ge : cursor ≤ candidate := by
          rw [hcanddef]
          split
          · simp only [addMinutes]; omega
          · omega
        split
        · simp
        · rename_i hhor
          push_neg at hhor
          split
          · rename_i hactive
            obtain ⟨ihb, ihs, ihl⟩ := ih (rem - 1) (addMinutes candidate interval)
              (by simp only [addMinutes]; omega)
            refine ⟨?_, ?_, ?_⟩
            · intro t ht
              rcases List.mem_cons.mp ht with rfl | ht
              · exact ⟨⟨hcand_gt, hhor⟩, hcand_ge⟩
              · have hb := ihb t ht
                have : candidate + interval * 60000 ≤ t := by
                  simpa [addMinutes] using hb.2
                exact ⟨hb.1, by omega⟩
            · rw [List.pairwise_cons]
              refine ⟨fun b hb => ?_, ihs⟩
              have : candidate + interval * 60000 ≤ b := by
                simpa [addMinutes] using (ihb b hb).2
              omega
            · simp only [List.length_cons]; omega
          · obtain ⟨ihb, ihs, ihl⟩ := ih rem (addMinutes candidate interval)
              (by simp only [addMinutes]; omega)
            refine ⟨?_, ihs, ihl⟩
            intro t ht
            have hb := ihb t ht
            have : candidate + interval * 60000 ≤ t := by
              simpa [addMinutes] using hb.2
            exact ⟨hb.1, by omega⟩
      · -- bounded-window branch
        rename_i hallday
        have hne : startMinutes ≠ endMinutes := by
          intro hcontra
          rw [hAD] at hallday
          exact hallday (by simpa using hcontra)
        cases hin : isWithinWindow cursor startMinutes endMinutes spansMidnight with
        | true =>
          simp only [hin, Bool.not_true, Bool.false_eq_true, false_and, if_false,
            Bool.false_eq_true, if_false]
          have hwe := windowFor_end_gt cursor startMinutes endMinutes spansMidnight
            hs0 hs1 he0 he1 hSP hne hin
          set w := windowFor cursor startMinutes endMinutes spansMidnight with hwdef
          have hca := alignToInterval_ge w.start cursor interval hivl
          obtain ⟨pb, ps, pl⟩ := innerWindowLoop_props now horizon interval activeDays
            w.«end» hivl 600 rem (alignToInterval w.start cursor interval)
          obtain ⟨rb, rs, rl⟩ := ih
            (rem - (innerWindowLoop now horizon interval activeDays w.«end» 600 rem
              (alignToInterval w.start cursor interval)).length)
            (addMinutes w.«end» 1) (by simp only [addMinutes]; omega)
          refine ⟨?_, ?_, ?_⟩
          · intro t ht
            rcases List.mem_append.mp ht with ht | ht
            · have hb := pb t ht
              exact ⟨hb.1, by omega⟩
            · have hb := rb t ht
              have : w.«end» + 1 * 60000 ≤ t := by
                simpa [addMinutes] using hb.2
              exact ⟨hb.1, by omega⟩
          · rw [List.pairwise_append]
            refine ⟨ps, rs, ?_⟩
            intro a ha b hb
            have hae := (pb a ha).2.1
            have hbe : w.«end» + 1 * 60000 ≤ b := by
              simpa [addMinutes] using (rb b hb).2
            omega
          · rw [List.length_append]
            omega
        | false =>
          simp only [hin, Bool.not_false, true_and]
          split
          · simp
          · rename_i hnsle
            push_neg at hnsle
            have hge := nextWindowStart_ge cursor startMinutes endMinutes spansMidnight
              hs0 hs1 he0 he1 hSP hin
            have hwin := nextWindowStart_within cursor startMinutes endMinutes
              spansMidnight hs0 hs1 he0 he1 hSP hne
            set ns := nextWindowStart cursor startMinutes endMinutes spansMidnight
              with hnsdef
            simp only [if_true]
            have hwe := windowFor_end_gt ns startMinutes endMinutes spansMidnight
              hs0 hs1 he0 he1 hSP hne hwin
            set w := windowFor ns startMinutes endMinutes spansMidnight with hwdef
            have hca := alignToInterval_ge w.start ns interval hivl
            obtain ⟨pb, ps, pl⟩ := innerWindowLoop_props now horizon interval activeDays
              w.«end» hivl 600 rem (alignToInterval w.start ns interval)
            obtain ⟨rb, rs, rl⟩ := ih
              (rem - (innerWindowLoop now horizon interval activeDays w.«end» 600 rem
                (alignToInterval w.start ns interval)).length)
              (addMinutes w.«end» 1) (by simp only [addMinutes]; omega)
            refine ⟨?_, ?_, ?_⟩
            · intro t ht
              rcases List.mem_append.mp ht with ht | ht
              · have hb := pb t ht
                exact ⟨hb.1, by omega⟩
              · have hb := rb t ht
                have : w.«end» + 1 * 60000 ≤ t := by
                  simpa [addMinutes] using hb.2
                exact ⟨hb.1, by omega⟩
            · rw [List.pairwise_append]
              refine ⟨ps, rs, ?_⟩
              intro a ha b hb
              have hae := (pb a ha).2.1
              have hbe : w.«end» + 1 * 60000 ≤ b := by
                simpa [addMinutes] using (rb b hb).2
              omega
            · rw [List.length_append]
              omega
    · simp

end Scheduler
namespace Scheduler

/-! ### Monthly generator: bounds, order, length -/

theorem dateAtMinutes_mk (y m d T : Int) :
    dateAtMinutes (mkDatems y m d) T = mkDatems y m d + T * 60000 := by
  have := mkDatems_emod y m d
  simp only [dateAtMinutes, startOfDay]
  omega

theorem getFullYear_mk1 (y m d : Int) (h0 : 0 ≤ m) (h1 : m ≤ 11) (hd1 : 1 ≤ d)
    (hd2 : d ≤ daysInMonthT (isLeap y) m) : getFullYear (mkDatems y m d) = y := by
  have := getFullYear_mk y m d 0 h0 h1 hd1 hd2 le_rfl (by norm_num)
  simpa using this

theorem getMonth_mk1 (y m d : Int) (h0 : 0 ≤ m) (h1 : m ≤ 11) (hd1 : 1 ≤ d)
    (hd2 : d ≤ daysInMonthT (isLeap y) m) : getMonth (mkDatems y m d) = m := by
  have := getMonth_mk y m d 0 h0 h1 hd1 hd2 le_rfl (by norm_num)
  simpa using this

theorem monthCandidate_lt_next (T D y m : Int) (hD : 1 ≤ D) (h0 : 0 ≤ m) (h1 : m ≤ 10) :
    monthCandidate T D y m < monthCandidate T D y (m + 1) := by
  have h28a := daysInMonthT_pos (isLeap y) m
  have h28b := daysInMonthT_pos (isLeap y) (m + 1)
  rw [monthCandidate, monthCandidate, dateAtMinutes_mk, dateAtMinutes_mk]
  simp only [mkDatems, mkDateDays_eq y m _ h0 (by omega),
    mkDateDays_eq y (m + 1) _ (by omega) (by omega)]
  have := daysFromCivil_lt_next y m (min D (daysInMonthT (isLeap y) m))
    (min D (daysInMonthT (isLeap y) (m + 1))) h0 h1 (min_le_right _ _) (by omega)
  omega

theorem monthCandidate_lt_year (T D y : Int) (hD : 1 ≤ D) :
    monthCandidate T D y 11 < monthCandidate T D (y + 1) 0 := by
  have h28a := daysInMonthT_pos (isLeap y) 11
  have h28b := daysInMonthT_pos (isLeap (y + 1)) 0
  rw [monthCandidate, monthCandidate, dateAtMinutes_mk, dateAtMinutes_mk]
  simp only [mkDatems, mkDateDays_eq y 11 _ (by norm_num) (by norm_num),
    mkDateDays_eq (y + 1) 0 _ (by norm_num) (by norm_num)]
  have := daysFromCivil_lt_year y (min D (daysInMonthT (isLeap y) 11))
    (min D (daysInMonthT (isLeap (y + 1)) 0)) (min_le_right _ _) (by omega)
  omega

theorem monthlyLoop_props (now horizon T D : Int) (hD : 1 ≤ D) :
    ∀ (fuel rem : Nat) (y m : Int), 0 ≤ m → m ≤ 11 →
      (∀ t ∈ monthlyLoop now horizon T D fuel rem (mkDatems y m 1),
        (now < t ∧ t ≤ horizon) ∧ monthCandidate T D y m ≤ t) ∧
      List.Pairwise (· < ·) (monthlyLoop now horizon T D fuel rem (mkDatems y m 1)) ∧
      (monthlyLoop now horizon T D fuel rem (mkDatems y m 1)).length ≤ rem := by
  intro fuel
  induction fuel with
  | zero => intro rem y m h0 h1; simp [monthlyLoop]
  | succ n ih =>
    intro rem y m h0 h1
    have h28 := daysInMonthT_pos (isLeap y) m
    have hY := getFullYear_mk1 y m 1 h0 h1 le_rfl (by omega)
    have hM := getMonth_mk1 y m 1 h0 h1 le_rfl (by omega)
    have hDim := getDaysInMonth_eq y m h0 h1
    have hAdd := addMonths_one y m h0 h1
    rw [monthlyLoop]
    dsimp only
    rw [hY, hM, hDim, hAdd]
    have hfold : dateAtMinutes (mkDatems y m (min D (daysInMonthT (isLeap y) m))) T =
        monthCandidate T D y m := rfl
    rw [hfold]
    have hnextlt :
        monthCandidate T D y m <
          (if m = 11 then monthCandidate T D (y + 1) 0 else monthCandidate T D y (m + 1)) := by
      split
      · rename_i hm11
        subst hm11
        exact monthCandidate_lt_year T D y hD
      · rename_i hm11
        exact monthCandidate_lt_next T D y m hD h0 (by omega)
    have hrec : ∀ (rem' : Nat),
        (∀ t ∈ monthlyLoop now horizon T D n rem' (mkDatems y (m + 1) 1),
          (now < t ∧ t ≤ horizon) ∧
            (if m = 11 then monthCandidate T D (y + 1) 0 else monthCandidate T D y (m + 1)) ≤ t) ∧
        List.Pairwise (· < ·) (monthlyLoop now horizon T D n rem' (mkDatems y (m + 1) 1)) ∧
        (monthlyLoop now horizon T D n rem' (mkDatems y (m + 1) 1)).length ≤ rem' := by
      intro rem'
      rcases eq_or_lt_of_le h1 with hm11 | hm11
    /- m = 11 : roll into January of the next year -/
      · subst hm11
        have h1112 : (11 : Int) + 1 = 12 := by norm_num
        rw [h1112, mkDatems_twelve]
        have := ih rem' (y + 1) 0 (by norm_num) (by norm_num)
        simp only [if_pos rfl]
        exact this
      · have := ih rem' y (m + 1) (by omega) (by omega)
        rw [if_neg (by omega)]
        exact this
    split
    · rename_i hcond
      split
      · rename_i hpush
        obtain ⟨ihb, ihs, ihl⟩ := hrec (rem - 1)
        refine ⟨?_, ?_, ?_⟩
        · intro t ht
          rcases List.mem_cons.mp ht with rfl | ht
          · exact ⟨⟨hpush.1, hpush.2⟩, le_rfl⟩
          · have hb := ihb t ht
            exact ⟨hb.1, by omega⟩
        · rw [List.pairwise_cons]
          refine ⟨fun b hb => ?_, ihs⟩
          have := (ihb b hb).2
          omega
        · simp only [List.length_cons]; omega
      · obtain ⟨ihb, ihs, ihl⟩ := hrec rem
        refine ⟨?_, ihs, ihl⟩
        intro t ht
        have hb := ihb t ht
        exact ⟨hb.1, by omega⟩
    · simp

end Scheduler
namespace Scheduler

/-! ### Generator wrappers: bounds, order, length -/

theorem getMonth_range (t : Int) : 0 ≤ getMonth t ∧ getMonth t ≤ 11 := by
  unfold getMonth civilFromDays
  dsimp only
  exact monthFromDoy_range _ _

theorem generateFallbackDates_props (input : FallbackInput)
    (hivl : 1 ≤ input.intervalMinutes) :
    (∀ t ∈ generateFallbackDates input,
      input.now < t ∧ t ≤ input.now + input.horizonHours * 60 * 60 * 1000) ∧
    List.Pairwise (· < ·) (generateFallbackDates input) ∧
    (generateFallbackDates input).length ≤ input.maxCount := by
  unfold generateFallbackDates
  dsimp only
  obtain ⟨hb, hs, hl⟩ := fallbackLoop_props
    (input.now + input.horizonHours * 60 * 60 * 1000) input.intervalMinutes
    input.startMinutes input.endMinutes input.daysOfWeek
    (input.startMinutes == input.endMinutes)
    (decide (input.endMinutes < input.startMinutes)) (by omega)
    (60 * input.horizonHours.toNat + 4) input.maxCount
    (addMinutes input.now input.intervalMinutes -
      addMinutes input.now input.intervalMinutes % 60000)
  refine ⟨?_, hs, hl⟩
  intro t ht
  have h := hb t ht
  have hcur : input.now < addMinutes input.now input.intervalMinutes -
      addMinutes input.now input.intervalMinutes % 60000 := by
    simp only [addMinutes]
    omega
  exact ⟨by omega, h.2⟩

theorem generateFireDates_props (input : ScheduleInput) :
    (∀ t ∈ generateFireDates input,
      input.now < t ∧ t ≤ input.now + input.horizonHours.getD 24 * 60 * 60 * 1000) ∧
    List.Pairwise (· < ·) (generateFireDates input) ∧
    (generateFireDates input).length ≤ input.maxCount.getD 50 := by
  have hivl := clamp_interval_range input.intervalMinutes
  have hsr := normalizeMinutes_range input.startMinutesFromMidnight
  have her := normalizeMinutes_range input.endMinutesFromMidnight
  unfold generateFireDates
  dsimp only
  split
  · simp
  · obtain ⟨fb, fs, fl⟩ := fireLoop_props input.now
      (input.now + input.horizonHours.getD 24 * 60 * 60 * 1000)
      (clamp input.intervalMinutes MIN_INTERVAL MAX_INTERVAL)
      (normalizeMinutes input.startMinutesFromMidnight)
      (normalizeMinutes input.endMinutesFromMidnight)
      (normalizeDaysOfWeek input.daysOfWeek)
      (normalizeMinutes input.startMinutesFromMidnight ==
        normalizeMinutes input.endMinutesFromMidnight)
      (decide (normalizeMinutes input.endMinutesFromMidnight <
        normalizeMinutes input.startMinutesFromMidnight))
      (by omega) hsr.1 hsr.2 her.1 her.2 rfl rfl
      (60 * (input.horizonHours.getD 24).toNat + 4) (input.maxCount.getD 50) input.now
      le_rfl
    split
    · obtain ⟨gb, gs, gl⟩ := generateFallbackDates_props
        ⟨input.now, clamp input.intervalMinutes MIN_INTERVAL MAX_INTERVAL,
          normalizeMinutes input.startMinutesFromMidnight,
          normalizeMinutes input.endMinutesFromMidnight,
          normalizeDaysOfWeek input.daysOfWeek, input.maxCount.getD 50,
          input.horizonHours.getD 24⟩ (by dsimp only; omega)
      exact ⟨gb, gs, gl⟩
    · exact ⟨fun t ht => (fb t ht).1, fs, fl⟩

theorem generateFixedTimeDates_props (input : FixedTimeInput) :
    (∀ t ∈ generateFixedTimeDates input,
      input.now < t ∧ t ≤ input.now + input.horizonHours.getD 24 * 60 * 60 * 1000) ∧
    List.Pairwise (· < ·) (generateFixedTimeDates input) ∧
    (generateFixedTimeDates input).length ≤ input.maxCount.getD 50 := by
  unfold generateFixedTimeDates
  dsimp only
  split
  · simp
  · obtain ⟨hb, hs, hl⟩ := fixedLoop_props input.now
      (input.now + input.horizonHours.getD 24 * 60 * 60 * 1000) input.timeMinutes
      (normalizeDaysOfWeek input.daysOfWeek) ((input.horizonHours.getD 24).toNat + 3)
      (input.maxCount.getD 50) (startOfDay input.now)
    exact ⟨fun t ht => (hb t ht).1, hs, hl⟩

theorem generateMonthlyDates_props (input : MonthlyInput) :
    (∀ t ∈ generateMonthlyDates input,
      input.now < t ∧ t ≤ input.now + input.horizonHours.getD 24 * 60 * 60 * 1000) ∧
    List.Pairwise (· < ·) (generateMonthlyDates input) ∧
    (generateMonthlyDates input).length ≤ input.maxCount.getD 50 := by
  have hD := normalizeDayOfMonth_range (some input.dayOfMonth)
  have hm := getMonth_range input.now
  unfold generateMonthlyDates
  dsimp only
  obtain ⟨hb, hs, hl⟩ := monthlyLoop_props input.now
    (input.now + input.horizonHours.getD 24 * 60 * 60 * 1000) input.timeMinutes
    (normalizeDayOfMonth (some input.dayOfMonth)) hD.1
    ((input.horizonHours.getD 24).toNat + 3) (input.maxCount.getD 50)
    (getFullYear input.now) (getMonth input.now) hm.1 hm.2
  exact ⟨fun t ht => (hb t ht).1, hs, hl⟩

/-! ### Per-rule dispatch bounds -/

theorem datesForSchedule_props (now : Int) (maxCount : Nat) (horizonHours : Int)
    (schedule : ScheduleRule) :
    (∀ t ∈ datesForSchedule now maxCount horizonHours schedule,
      now < t ∧ t ≤ now + horizonHours * 60 * 60 * 1000) ∧
    List.Pairwise (· < ·) (datesForSchedule now maxCount horizonHours schedule) ∧
    (datesForSchedule now maxCount horizonHours schedule).length ≤ maxCount := by
  unfold datesForSchedule
  cases schedule.type
  · simpa using generateFireDates_props
      ⟨now, schedule.intervalMinutes, schedule.startMinutesFromMidnight,
        schedule.endMinutesFromMidnight, schedule.daysOfWeek, some maxCount,
        some horizonHours⟩
  · simpa using generateFixedTimeDates_props
      ⟨now, schedule.startMinutesFromMidnight, schedule.daysOfWeek, some maxCount,
        some horizonHours⟩
  · simpa using generateFixedTimeDates_props
      ⟨now, schedule.startMinutesFromMidnight, schedule.daysOfWeek, some maxCount,
        some horizonHours⟩
  · simpa using generateMonthlyDates_props
      ⟨now, schedule.startMinutesFromMidnight, normalizeDayOfMonth schedule.dayOfMonth,
        some maxCount, some horizonHours⟩

/-! ### Queue builder: stable sort facts -/

theorem insertByDate_perm (x : ScheduledNotification) (l : List ScheduledNotification) :
    (insertByDate x l).Perm (x :: l) := by
  induction l with
  | nil => rfl
  | cons b l ih =>
    rw [insertByDate]
    split
    · exact (ih.cons b).trans (List.Perm.swap x b l)
    · rfl

theorem sortByDate_perm (l : List ScheduledNotification) : (sortByDate l).Perm l := by
  induction l with
  | nil => rfl
  | cons a l ih =>
    have : sortByDate (a :: l) = insertByDate a (sortByDate l) := rfl
    rw [this]
    exact (insertByDate_perm a (sortByDate l)).trans (ih.cons a)

theorem insertByDate_sorted (x : ScheduledNotification) (l : List ScheduledNotification)
    (h : List.Pairwise (fun a b : ScheduledNotification => a.date ≤ b.date) l) :
    List.Pairwise (fun a b : ScheduledNotification => a.date ≤ b.date) (insertByDate x l) := by
  induction l with
  | nil => simp [insertByDate]
  | cons b l ih =>
    rw [List.pairwise_cons] at h
    rw [insertByDate]
    split
    · rename_i hlt
      rw [List.pairwise_cons]
      refine ⟨?_, ih h.2⟩
      intro a ha
      have hmem := List.mem_cons.mp ((insertByDate_perm x l).mem_iff.mp ha)
      rcases hmem with rfl | ha2
      · omega
      · exact h.1 a ha2
    · rename_i hge
      rw [List.pairwise_cons]
      refine ⟨?_, List.pairwise_cons.mpr h⟩
      intro a ha
      rcases List.mem_cons.mp ha with rfl | ha
      · omega
      · have := h.1 a ha
        omega

theorem sortByDate_sorted (l : List ScheduledNotification) :
    List.Pairwise (fun a b : ScheduledNotification => a.date ≤ b.date) (sortByDate l) := by
  induction l with
  | nil => simp [sortByDate]
  | cons a l ih => exact insertByDate_sorted a (sortByDate l) ih

theorem insertByDate_filter_eq (x : ScheduledNotification) (l : List ScheduledNotification)
    (t : Int) (hx : x.date = t) :
    (insertByDate x l).filter (fun nfn => nfn.date == t) =
      x :: l.filter (fun nfn => nfn.date == t) := by
  induction l with
  | nil => simp [insertByDate, List.filter, hx]
  | cons b l ih =>
    rw [insertByDate]
    split
    · rename_i hlt
      have hb : (b.date == t) = false := by
        simp only [beq_eq_false_iff_ne, ne_eq]
        omega
      rw [List.filter_cons, List.filter_cons, hb]
      simp only [Bool.false_eq_true, if_false]
      exact ih
    · rw [List.filter_cons]
      simp [hx]

theorem insertByDate_filter_ne (x : ScheduledNotification) (l : List ScheduledNotification)
    (t : Int) (hx : x.date ≠ t) :
    (insertByDate x l).filter (fun nfn => nfn.date == t) =
      l.filter (fun nfn => nfn.date == t) := by
  have hxf : (x.date == t) = false := by simpa using hx
  induction l with
  | nil => simp [insertByDate, List.filter, hxf]
  | cons b l ih =>
    rw [insertByDate]
    split
    · rw [List.filter_cons, List.filter_cons]
      split <;> rw [ih]
    · rw [List.filter_cons]
      rw [hxf]
      simp only [Bool.false_eq_true, if_false]

/-- Stability of the queue sort, in the classical filter form: restricting the
sorted list to the notifications of any fixed instant reproduces their original
relative order. -/
theorem sortByDate_filter_stable (l : List ScheduledNotification) (t : Int) :
    (sortByDate l).filter (fun nfn => nfn.date == t) =
      l.filter (fun nfn => nfn.date == t) := by
  induction l with
  | nil => rfl
  | cons a l ih =>
    have hstep : sortByDate (a :: l) = insertByDate a (sortByDate l) := rfl
    rw [hstep, List.filter_cons]
    by_cases ha : a.date = t
    · rw [insertByDate_filter_eq a _ t ha, ih]
      simp [ha]
    · rw [insertByDate_filter_ne a _ t ha, ih]
      have : (a.date == t) = false := by simpa using ha
      rw [this]
      simp only [Bool.false_eq_true, if_false]

end Scheduler
namespace Scheduler

theorem buildNotificationQueue_props (input : QueueInput) :
    (∀ nfn ∈ buildNotificationQueue input,
      input.now < nfn.date ∧
        nfn.date ≤ input.now + input.horizonHours.getD 24 * 60 * 60 * 1000) ∧
    (buildNotificationQueue input).length ≤ input.maxCount.getD 50 := by
  unfold buildNotificationQueue
  dsimp only
  constructor
  · intro nfn ht
    have h1 := (List.take_sublist _ _).subset ht
    have h2 := (sortByDate_perm _).subset h1
    obtain ⟨schedule, hs, hmem⟩ := List.mem_flatMap.mp h2
    obtain ⟨d, hd, rfl⟩ := List.mem_map.mp hmem
    exact (datesForSchedule_props input.now (input.maxCount.getD 50)
      (input.horizonHours.getD 24) schedule).1 d hd
  · exact List.length_take_le _ _

end Scheduler
namespace Scheduler

/-! ### Claim theorems -/

/-- C1: every per-rule generator (within-day, fixed-time, monthly, and the
fallback sweep) returns a strictly increasing sequence of instants, each in
`(now, now + horizonHours hours]`, of length at most `maxCount`; the merged
queue's instants satisfy the same bounds (the fallback statement assumes a
positive interval, which its only caller guarantees via the `[5, 180]` clamp). -/
theorem C1_generation_bounds_and_order :
    (∀ input : ScheduleInput,
      (∀ t ∈ generateFireDates input,
        input.now < t ∧ t ≤ input.now + input.horizonHours.getD 24 * 60 * 60 * 1000) ∧
      List.Pairwise (· < ·) (generateFireDates input) ∧
      (generateFireDates input).length ≤ input.maxCount.getD 50) ∧
    (∀ input : FixedTimeInput,
      (∀ t ∈ generateFixedTimeDates input,
        input.now < t ∧ t ≤ input.now + input.horizonHours.getD 24 * 60 * 60 * 1000) ∧
      List.Pairwise (· < ·) (generateFixedTimeDates input) ∧
      (generateFixedTimeDates input).length ≤ input.maxCount.getD 50) ∧
    (∀ input : MonthlyInput,
      (∀ t ∈ generateMonthlyDates input,
        input.now < t ∧ t ≤ input.now + input.horizonHours.getD 24 * 60 * 60 * 1000) ∧
      List.Pairwise (· < ·) (generateMonthlyDates input) ∧
      (generateMonthlyDates input).length ≤ input.maxCount.getD 50) ∧
    (∀ input : FallbackInput, 1 ≤ input.intervalMinutes →
      (∀ t ∈ generateFallbackDates input,
        input.now < t ∧ t ≤ input.now + input.horizonHours * 60 * 60 * 1000) ∧
      List.Pairwise (· < ·) (generateFallbackDates input) ∧
      (generateFallbackDates input).length ≤ input.maxCount) ∧
    (∀ input : QueueInput,
      (∀ nfn ∈ buildNotificationQueue input,
        input.now < nfn.date ∧
          nfn.date ≤ input.now + input.horizonHours.getD 24 * 60 * 60 * 1000) ∧
      (buildNotificationQueue input).length ≤ input.maxCount.getD 50) :=
  ⟨generateFireDates_props, generateFixedTimeDates_props, generateMonthlyDates_props,
    fun input h => generateFallbackDates_props input h, buildNotificationQueue_props⟩

/-- Witness for C1 at concrete inputs: membership and interval hypotheses are
discharged by computation (2024-01-01 00:00 UTC-epoch-style local time, all-day
rule with a 60-minute interval). -/
theorem C1_generation_bounds_and_order_witness :
    (1704067200000 : Int) < 1704070800000 ∧
      (1704070800000 : Int) ≤ 1704067200000 + 24 * 60 * 60 * 1000 :=
  (C1_generation_bounds_and_order.2.2.2.1
    ⟨1704067200000, 60, 0, 0, [true, true, true, true, true, true, true], 50, 24⟩
    (by norm_num)).1 1704070800000 (by decide)

/-- C2: the queue builder tags each generated instant with its rule's id and
message, concatenates across rules in input order, sorts by instant with a
stable sort, and returns exactly the first `maxCount` entries: the output is
the `maxCount`-prefix of a list that is a sorted permutation of the tagged
concatenation and that preserves, for every fixed instant, the original
relative order of that instant's notifications (stability). -/
theorem C2_queue_stable_sort (input : QueueInput) :
    buildNotificationQueue input =
      (sortByDate (input.schedules.flatMap fun schedule =>
        (datesForSchedule input.now (input.maxCount.getD 50) (input.horizonHours.getD 24)
          schedule).map fun date =>
          { scheduleId := schedule.id, date := date, message := schedule.message })).take
        (input.maxCount.getD 50) ∧
    List.Pairwise (fun a b : ScheduledNotification => a.date ≤ b.date)
      (sortByDate (input.schedules.flatMap fun schedule =>
        (datesForSchedule input.now (input.maxCount.getD 50) (input.horizonHours.getD 24)
          schedule).map fun date =>
          { scheduleId := schedule.id, date := date, message := schedule.message })) ∧
    (sortByDate (input.schedules.flatMap fun schedule =>
      (datesForSchedule input.now (input.maxCount.getD 50) (input.horizonHours.getD 24)
        schedule).map fun date =>
        { scheduleId := schedule.id, date := date, message := schedule.message })).Perm
      (input.schedules.flatMap fun schedule =>
        (datesForSchedule input.now (input.maxCount.getD 50) (input.horizonHours.getD 24)
          schedule).map fun date =>
          { scheduleId := schedule.id, date := date, message := schedule.message }) ∧
    ∀ t : Int,
      (sortByDate (input.schedules.flatMap fun schedule =>
        (datesForSchedule input.now (input.maxCount.getD 50) (input.horizonHours.getD 24)
          schedule).map fun date =>
          { scheduleId := schedule.id, date := date, message := schedule.message })).filter
        (fun nfn => nfn.date == t) =
      (input.schedules.flatMap fun schedule =>
        (datesForSchedule input.now (input.maxCount.getD 50) (input.horizonHours.getD 24)
          schedule).map fun date =>
          { scheduleId := schedule.id, date := date, message := schedule.message }).filter
        (fun nfn => nfn.date == t) :=
  ⟨rfl, sortByDate_sorted _, sortByDate_perm _, fun t => sortByDate_filter_stable _ t⟩

/-- The monthly dispatch never reads the weekday mask. -/
theorem datesForSchedule_monthly_mask (now : Int) (maxCount : Nat) (horizonHours : Int)
    (r : ScheduleRule) (d : Option (List Bool)) (ht : r.type = ScheduleType.monthly) :
    datesForSchedule now maxCount horizonHours { r with daysOfWeek := d } =
      datesForSchedule now maxCount horizonHours r := by
  unfold datesForSchedule
  cases r
  dsimp only at ht ⊢
  rw [ht]

/-- C10: two monthly rules identical except for `daysOfWeek` produce identical
queues; a monthly rule's output is independent of the weekday mask. -/
theorem C10_monthly_ignores_mask (now : Int) (maxCount : Option Nat)
    (horizonHours : Option Int) (r : ScheduleRule) (d1 d2 : Option (List Bool))
    (ht : r.type = ScheduleType.monthly) :
    buildNotificationQueue ⟨now, [{ r with daysOfWeek := d1 }], maxCount, horizonHours⟩ =
      buildNotificationQueue ⟨now, [{ r with daysOfWeek := d2 }], maxCount, horizonHours⟩ := by
  unfold buildNotificationQueue
  dsimp only
  simp only [List.flatMap_cons, List.flatMap_nil, List.append_nil]
  rw [datesForSchedule_monthly_mask now _ _ r d1 ht,
    datesForSchedule_monthly_mask now _ _ r d2 ht]

/-- Witness for C10: a concrete monthly rule with an all-false versus an
all-true mask yields the same queue. -/
theorem C10_monthly_ignores_mask_witness :
    buildNotificationQueue
      ⟨1706702400000,
        [{ id := "m", type := ScheduleType.monthly, intervalMinutes := 30,
           startMinutesFromMidnight := 0, endMinutesFromMidnight := 0,
           message := "msg",
           daysOfWeek := some [false, false, false, false, false, false, false],
           dayOfMonth := some 1 }], none, none⟩ =
    buildNotificationQueue
      ⟨1706702400000,
        [{ id := "m", type := ScheduleType.monthly, intervalMinutes := 30,
           startMinutesFromMidnight := 0, endMinutesFromMidnight := 0,
           message := "msg",
           daysOfWeek := some [true, true, true, true, true, true, true],
           dayOfMonth := some 1 }], none, none⟩ :=
  C10_monthly_ignores_mask 1706702400000 none none
    { id := "m", type := ScheduleType.monthly, intervalMinutes := 30,
      startMinutesFromMidnight := 0, endMinutesFromMidnight := 0, message := "msg",
      daysOfWeek := none, dayOfMonth := some 1 }
    (some [false, false, false, false, false, false, false])
    (some [true, true, true, true, true, true, true]) rfl

end Scheduler
namespace Scheduler

/-! ### Empty weekday mask (C3) -/

theorem isDayActive_all_false (t : Int) :
    isDayActive t (List.replicate 7 false) = false := by
  unfold isDayActive
  apply getD_all_false
  intro b hb
  exact List.eq_of_mem_replicate hb

theorem normalizeDaysOfWeek_all_false :
    normalizeDaysOfWeek (some (List.replicate 7 false)) = List.replicate 7 false := by
  simp [normalizeDaysOfWeek]

theorem generateFireDates_all_false (input : ScheduleInput)
    (h : input.daysOfWeek = some (List.replicate 7 false)) :
    generateFireDates input = [] := by
  unfold generateFireDates
  rw [h, normalizeDaysOfWeek_all_false]
  have hany : (List.replicate 7 false).any id = false := by decide
  simp [hany]

theorem generateFixedTimeDates_all_false (input : FixedTimeInput)
    (h : input.daysOfWeek = some (List.replicate 7 false)) :
    generateFixedTimeDates input = [] := by
  unfold generateFixedTimeDates
  rw [h, normalizeDaysOfWeek_all_false]
  have hany : (List.replicate 7 false).any id = false := by decide
  simp [hany]

theorem fallbackLoop_all_false (horizon interval startMinutes endMinutes : Int)
    (allDay spansMidnight : Bool) :
    ∀ (fuel rem : Nat) (cursor : Int),
      fallbackLoop horizon interval startMinutes endMinutes (List.replicate 7 false)
        allDay spansMidnight fuel rem cursor = [] := by
  intro fuel
  induction fuel with
  | zero => intro rem cursor; rfl
  | succ n ih =>
    intro rem cursor
    have hfalse : ((allDay || isWithinWindow cursor startMinutes endMinutes spansMidnight)
        && isDayActive cursor (List.replicate 7 false)) = false := by
      rw [isDayActive_all_false, Bool.and_false]
    rw [fallbackLoop, hfalse]
    split
    · simp only [Bool.false_eq_true, if_false]
      exact ih _ _
    · rfl

theorem generateFallbackDates_all_false (input : FallbackInput)
    (h : input.daysOfWeek = List.replicate 7 false) :
    generateFallbackDates input = [] := by
  unfold generateFallbackDates
  rw [h]
  exact fallbackLoop_all_false _ _ _ _ _ _ _ _ _

/-- C3 counterexample: a Monthly rule with the all-false weekday mask still
emits (now = 2024-01-31 12:00; the per-month-clamped day 1 of February lies
inside the 24-hour default horizon), so the claim as stated — which includes
Monthly rules — is false on the code. -/
theorem C3_counterexample :
    buildNotificationQueue
      ⟨1706702400000,
        [{ id := "m", type := ScheduleType.monthly, intervalMinutes := 30,
           startMinutesFromMidnight := 0, endMinutesFromMidnight := 0,
           message := "msg",
           daysOfWeek := some [false, false, false, false, false, false, false],
           dayOfMonth := some 1 }], none, none⟩ ≠ [] := by
  decide

/-- C3 amended: every WithinDay, Daily, or Weekly rule with an all-false
7-element weekday mask generates an empty result regardless of horizon and
maxCount, and the fallback sweep is never the source of output for it: the
empty-mask guard returns before both the primary search and the fallback
branch, and even the fallback sweep itself is empty under such a mask.
Monthly rules are exempt: the monthly generator never reads the mask (C10). -/
theorem C3_empty_mask :
    (∀ input : ScheduleInput, input.daysOfWeek = some (List.replicate 7 false) →
      generateFireDates input = []) ∧
    (∀ input : FixedTimeInput, input.daysOfWeek = some (List.replicate 7 false) →
      generateFixedTimeDates input = []) ∧
    (∀ input : FallbackInput, input.daysOfWeek = List.replicate 7 false →
      generateFallbackDates input = []) ∧
    (∀ (now : Int) (maxCount : Option Nat) (horizonHours : Option Int) (r : ScheduleRule),
      r.daysOfWeek = some (List.replicate 7 false) →
      (r.type = ScheduleType.withinDay ∨ r.type = ScheduleType.daily ∨
        r.type = ScheduleType.weekly) →
      buildNotificationQueue ⟨now, [r], maxCount, horizonHours⟩ = []) := by
  refine ⟨generateFireDates_all_false, generateFixedTimeDates_all_false,
    generateFallbackDates_all_false, ?_⟩
  intro now maxCount horizonHours r hmask htype
  have hdates : datesForSchedule now (maxCount.getD 50) (horizonHours.getD 24) r = [] := by
    unfold datesForSchedule
    rcases htype with ht | ht | ht <;> rw [ht]
    · exact generateFireDates_all_false _ hmask
    · exact generateFixedTimeDates_all_false _ hmask
    · exact generateFixedTimeDates_all_false _ hmask
  unfold buildNotificationQueue
  dsimp only
  simp [hdates]
  exact Or.inr rfl

/-- Witness for C3: the amended statement applied to a concrete Weekly rule
with the all-false mask. -/
theorem C3_empty_mask_witness :
    buildNotificationQueue
      ⟨1704067200000,
        [{ id := "w", type := ScheduleType.weekly, intervalMinutes := 30,
           startMinutesFromMidnight := 540, endMinutesFromMidnight := 0,
           message := "msg",
           daysOfWeek := some (List.replicate 7 false), dayOfMonth := none }],
        none, none⟩ = [] :=
  C3_empty_mask.2.2.2 1704067200000 none none
    { id := "w", type := ScheduleType.weekly, intervalMinutes := 30,
      startMinutesFromMidnight := 540, endMinutesFromMidnight := 0, message := "msg",
      daysOfWeek := some (List.replicate 7 false), dayOfMonth := none } rfl
    (Or.inr (Or.inr rfl))

/-! ### Normalization claims (C5, C6) -/

/-- C5 counterexample: a Daily rule keeps its raw `startMinutesFromMidnight`:
with `now` = 2024-01-01 00:30 and the 24-hour default horizon the raw value
1500 yields no instants (its candidate, 01:00 of the following day, falls past
the horizon) while the normalized value 60 yields 01:00 of the current day —
the engine does not compute with clamped values outside `generateFireDates`. -/
theorem C5_counterexample :
    generateFixedTimeDates ⟨1704069000000, 1500, none, none, none⟩ ≠
      generateFixedTimeDates ⟨1704069000000, normalizeMinutes 1500, none, none, none⟩ := by
  decide

/-- C5 amended: the WithinDay generator (`generateFireDates`) clamps
`intervalMinutes` into `[5, 180]` and normalizes both window bounds into
`[0, 1440)` before generating — it computes exactly as if its numeric fields
had been pre-normalized; the fixed-time and monthly generators receive the raw
`startMinutesFromMidnight`. -/
theorem C5_within_day_normalization :
    (∀ v : Int, 0 ≤ normalizeMinutes v ∧ normalizeMinutes v < 1440) ∧
    (∀ v : Int, 5 ≤ clamp v MIN_INTERVAL MAX_INTERVAL ∧
      clamp v MIN_INTERVAL MAX_INTERVAL ≤ 180) ∧
    (∀ input : ScheduleInput,
      generateFireDates input =
        generateFireDates
          { input with
            intervalMinutes := clamp input.intervalMinutes MIN_INTERVAL MAX_INTERVAL,
            startMinutesFromMidnight := normalizeMinutes input.startMinutesFromMidnight,
            endMinutesFromMidnight := normalizeMinutes input.endMinutesFromMidnight }) := by
  refine ⟨normalizeMinutes_range, clamp_interval_range, ?_⟩
  intro input
  unfold generateFireDates
  dsimp only
  rw [clamp_idem _ _ _ (by norm_num [MIN_INTERVAL, MAX_INTERVAL]),
    normalizeMinutes_idem, normalizeMinutes_idem]

/-- C6 counterexample: a Monthly rule with the out-of-range `dayOfMonth = 50`
does not behave as if the day were 1: with `now` = 2024-01-15 and a 480-hour
horizon it fires on January 31 (50 is clamped to 31, then per-month), whereas
day 1 would fire on February 1. -/
theorem C6_counterexample :
    generateMonthlyDates ⟨1705276800000, 0, 50, none, some 480⟩ ≠
      generateMonthlyDates ⟨1705276800000, 0, 1, none, some 480⟩ := by
  decide

/-- C6 amended: a missing (or non-finite) `dayOfMonth` is replaced with day 1;
an out-of-range value is rounded and clamped into `[1, 31]` (so 50 becomes 31,
not 1); the monthly generator behaves exactly as if `dayOfMonth` were this
normalized value, to which the per-month clamp is then applied. -/
theorem C6_day_of_month_normalization :
    normalizeDayOfMonth none = 1 ∧
    (∀ v : Int, normalizeDayOfMonth (some v) = max 1 (min 31 v)) ∧
    (∀ input : MonthlyInput,
      generateMonthlyDates input =
        generateMonthlyDates
          { input with dayOfMonth := normalizeDayOfMonth (some input.dayOfMonth) }) := by
  refine ⟨rfl, ?_, ?_⟩
  · intro v
    simp only [normalizeDayOfMonth]
    split_ifs <;> omega
  · intro input
    unfold generateMonthlyDates
    dsimp only
    rw [normalizeDayOfMonth_idem]

/-! ### Midnight-spanning window example (C9) -/

/-- C9: the rule `{WithinDay, interval 60, start 21:00, end 06:00}` at
`now` = Monday 2024-01-01 20:00 (epoch ms 1704139200000; Monday midnight is
1704067200000) with the default 24-hour horizon emits exactly Monday 21:00,
22:00, 23:00 when only Monday is active — the Tuesday 00:00–05:00 instants are
excluded — and emits Monday 21:00 through Tuesday 05:00 (nine hourly instants)
when all seven weekdays are active. -/
theorem C9_midnight_spanning_window :
    generateFireDates ⟨1704139200000, 60, 1260, 360,
      some [true, false, false, false, false, false, false], none, none⟩ =
      [1704142800000, 1704146400000, 1704150000000] ∧
    generateFireDates ⟨1704139200000, 60, 1260, 360,
      some [true, true, true, true, true, true, true], none, none⟩ =
      (List.range' 21 9).map fun k => 1704067200000 + (k : Int) * 3600000 := by
  constructor <;> decide

end Scheduler
namespace Scheduler

/-! ### Monthly generator against the spec's month-by-month description (C4) -/

theorem monthIndexAfter_zero (y m : Int) (h0 : 0 ≤ m) (h1 : m ≤ 11) :
    monthIndexAfter y m 0 = (y, m) := by
  simp only [monthIndexAfter, Nat.cast_zero, add_zero, Prod.mk.injEq]
  omega

theorem monthIndexAfter_succ (y m : Int) (k : Nat) (h0 : 0 ≤ m) (h1 : m ≤ 11) :
    monthIndexAfter y m (k + 1) =
      if m = 11 then monthIndexAfter (y + 1) 0 k else monthIndexAfter y (m + 1) k := by
  split
  · rename_i hm
    subst hm
    simp only [monthIndexAfter, Prod.mk.injEq]
    push_cast
    constructor <;> omega
  · rename_i hm
    simp only [monthIndexAfter, Prod.mk.injEq]
    push_cast
    constructor <;> omega

theorem monthIndexAfter_snd_range (y m : Int) (k : Nat) :
    0 ≤ (monthIndexAfter y m k).2 ∧ (monthIndexAfter y m k).2 ≤ 11 := by
  simp only [monthIndexAfter]
  omega

theorem monthCandidate_ge_first (T D y m : Int) (hD : 1 ≤ D) (hT : 0 ≤ T)
    (h0 : 0 ≤ m) (h1 : m ≤ 11) : mkDatems y m 1 ≤ monthCandidate T D y m := by
  have h28 := daysInMonthT_pos (isLeap y) m
  rw [monthCandidate, dateAtMinutes_mk]
  simp only [mkDatems, mkDateDays_eq y m _ h0 h1]
  simp only [daysFromCivil]
  omega

theorem firstOfMonth_strict (y j : Int) :
    daysFromCivil (y + j / 12) (j % 12) 1 < daysFromCivil (y + (j + 1) / 12) ((j + 1) % 12) 1 := by
  have hr : 0 ≤ j % 12 ∧ j % 12 < 12 := by omega
  rcases lt_or_ge (j % 12) 11 with hc | hc
  · have e1 : (j + 1) / 12 = j / 12 := by omega
    have e2 : (j + 1) % 12 = j % 12 + 1 := by omega
    rw [e1, e2]
    exact daysFromCivil_lt_next (y + j / 12) (j % 12) 1 1 (by omega) (by omega)
      (le_trans (by norm_num) (daysInMonthT_pos _ _)) le_rfl
  · have hc11 : j % 12 = 11 := by omega
    have e1 : (j + 1) / 12 = j / 12 + 1 := by omega
    have e2 : (j + 1) % 12 = 0 := by omega
    rw [e1, e2, hc11]
    have h := daysFromCivil_lt_year (y + j / 12) 1 1
      (le_trans (by norm_num) (daysInMonthT_pos _ _)) le_rfl
    have e3 : y + (j / 12 + 1) = y + j / 12 + 1 := by ring
    rw [e3]
    exact h

theorem monthIndexAfter_first_mono (y m : Int) (h0 : 0 ≤ m) (h1 : m ≤ 11) :
    ∀ k : Nat, mkDatems y m 1 ≤
      mkDatems (monthIndexAfter y m k).1 (monthIndexAfter y m k).2 1 := by
  intro k
  induction k with
  | zero => rw [monthIndexAfter_zero y m h0 h1]
  | succ n ih =>
    refine le_trans ih ?_
    have hstep := firstOfMonth_strict y (m + (n : Int))
    have hrn := monthIndexAfter_snd_range y m n
    have hrn1 := monthIndexAfter_snd_range y m (n + 1)
    simp only [monthIndexAfter] at hrn hrn1 ⊢
    push_cast
    rw [mkDatems, mkDatems,
      mkDateDays_eq _ _ 1 (by omega) (by omega), mkDateDays_eq _ _ 1 (by omega) (by omega)]
    have e : m + ((n : Int) + 1) = m + (n : Int) + 1 := by ring
    rw [e]
    omega

theorem monthCandidate_after_ge (T D y m : Int) (hD : 1 ≤ D) (hT : 0 ≤ T)
    (h0 : 0 ≤ m) (h1 : m ≤ 11) (k : Nat) :
    mkDatems y m 1 ≤
      monthCandidate T D (monthIndexAfter y m k).1 (monthIndexAfter y m k).2 := by
  have hr := monthIndexAfter_snd_range y m k
  exact le_trans (monthIndexAfter_first_mono y m h0 h1 k)
    (monthCandidate_ge_first T D _ _ hD hT hr.1 hr.2)

theorem monthlyLoop_eq_spec (now horizon T D : Int) (hD : 1 ≤ D) (hT : 0 ≤ T) :
    ∀ (fuel rem : Nat) (y m : Int), 0 ≤ m → m ≤ 11 →
      monthlyLoop now horizon T D fuel rem (mkDatems y m 1) =
        ((List.range fuel).filterMap fun k =>
          if now < monthCandidate T D (monthIndexAfter y m k).1 (monthIndexAfter y m k).2 ∧
              monthCandidate T D (monthIndexAfter y m k).1 (monthIndexAfter y m k).2 ≤ horizon
          then some (monthCandidate T D (monthIndexAfter y m k).1 (monthIndexAfter y m k).2)
          else none).take rem := by
  intro fuel
  induction fuel with
  | zero => intro rem y m h0 h1; simp [monthlyLoop]
  | succ n ih =>
    intro rem y m h0 h1
    have h28 := daysInMonthT_pos (isLeap y) m
    have hY := getFullYear_mk1 y m 1 h0 h1 le_rfl (by omega)
    have hM := getMonth_mk1 y m 1 h0 h1 le_rfl (by omega)
    have hDim := getDaysInMonth_eq y m h0 h1
    have hAdd := addMonths_one y m h0 h1
    have hzero := monthIndexAfter_zero y m h0 h1
    rw [monthlyLoop]
    dsimp only
    have hfold : dateAtMinutes (mkDatems y m (min D (daysInMonthT (isLeap y) m))) T =
        monthCandidate T D y m := rfl
    rw [hY, hM, hDim, hAdd, hfold]
    set F : Nat → Option Int := fun k =>
      if now < monthCandidate T D (monthIndexAfter y m k).1 (monthIndexAfter y m k).2 ∧
          monthCandidate T D (monthIndexAfter y m k).1 (monthIndexAfter y m k).2 ≤ horizon
      then some (monthCandidate T D (monthIndexAfter y m k).1 (monthIndexAfter y m k).2)
      else none with hF
    have hF0 : F 0 =
        if now < monthCandidate T D y m ∧ monthCandidate T D y m ≤ horizon
        then some (monthCandidate T D y m) else none := by
      rw [hF]
      simp only [hzero]
    have hidx2 : ∀ k : Nat,
        monthIndexAfter y (11 + 1 : Int) k = monthIndexAfter (y + 1) 0 k := by
      intro k
      simp only [monthIndexAfter, Prod.mk.injEq]
      push_cast
      constructor <;> omega
    have hshift : (F ∘ Nat.succ) = fun k : Nat =>
        if now < monthCandidate T D (monthIndexAfter y (m + 1) k).1
              (monthIndexAfter y (m + 1) k).2 ∧
            monthCandidate T D (monthIndexAfter y (m + 1) k).1
              (monthIndexAfter y (m + 1) k).2 ≤ horizon
        then some (monthCandidate T D (monthIndexAfter y (m + 1) k).1
          (monthIndexAfter y (m + 1) k).2)
        else none := by
      funext k
      simp only [Function.comp, hF]
      rw [monthIndexAfter_succ y m k h0 h1]
      split
      · rename_i hm11
        subst hm11
        rw [hidx2 k]
      · rfl
    have hrec : ∀ rem' : Nat,
        monthlyLoop now horizon T D n rem' (mkDatems y (m + 1) 1) =
          ((List.range n).filterMap fun k =>
            if now < monthCandidate T D (monthIndexAfter y (m + 1) k).1
                  (monthIndexAfter y (m + 1) k).2 ∧
                monthCandidate T D (monthIndexAfter y (m + 1) k).1
                  (monthIndexAfter y (m + 1) k).2 ≤ horizon
            then some (monthCandidate T D (monthIndexAfter y (m + 1) k).1
              (monthIndexAfter y (m + 1) k).2)
            else none).take rem' := by
      intro rem'
      rcases eq_or_lt_of_le h1 with hm11 | hm11
      · subst hm11
        simp only [hidx2]
        have h1112 : (11 : Int) + 1 = 12 := by norm_num
        rw [h1112, mkDatems_twelve]
        exact ih rem' (y + 1) 0 (by norm_num) (by norm_num)
      · exact ih rem' y (m + 1) (by omega) (by omega)
    by_cases hguard : 0 < rem ∧ mkDatems y m 1 ≤ horizon
    · rw [if_pos hguard]
      obtain ⟨rem', hrem⟩ : ∃ rem', rem = rem' + 1 := ⟨rem - 1, by omega⟩
      subst hrem
      by_cases hhead : now < monthCandidate T D y m ∧ monthCandidate T D y m ≤ horizon
      · rw [if_pos hhead, List.range_succ_eq_map,
          List.filterMap_cons_some (by rw [hF0]; exact if_pos hhead),
          List.filterMap_map, hshift, List.take_succ_cons]
        have hsub : rem' + 1 - 1 = rem' := by omega
        rw [hsub]
        congr 1
        exact hrec rem'
      · rw [if_neg hhead, List.range_succ_eq_map,
          List.filterMap_cons_none (by rw [hF0]; exact if_neg hhead),
          List.filterMap_map, hshift]
        exact hrec (rem' + 1)
    · rw [if_neg hguard]
      rcases Nat.eq_zero_or_pos rem with hrem | hrem
      · subst hrem
        simp
      · have hhor : ¬ mkDatems y m 1 ≤ horizon := fun hc => hguard ⟨hrem, hc⟩
        have hnone : ∀ k ∈ List.range (n + 1), F k = none := by
          intro k hk
          rw [hF]
          refine if_neg ?_
          rintro ⟨hlt, hle⟩
          have hge := monthCandidate_after_ge T D y m hD hT h0 h1 k
          omega
        rw [List.filterMap_eq_nil_iff.mpr hnone]
        simp

end Scheduler

namespace Scheduler

/-- **C4.** For every Monthly rule with a representable (nonnegative)
`timeMinutes`, the generator equals the spec's enumeration
(`specMonthlyList`): for each calendar month from `now`'s month forward, the
fire day is `min(dayOfMonth, daysInThatMonth)` and the fire instant is at
`timeMinutes` past midnight on that day, emitted iff strictly after `now` and
at or before the horizon; concretely, for dayOfMonth 31, timeMinutes 540 and
now = 2025-02-15 (a 28-day February), the next emitted instant is
February 28 at 09:00 (epoch 1740733200000), not a date in March. -/
theorem C4_monthly_clamp :
    (∀ input : MonthlyInput, 0 ≤ input.timeMinutes →
      generateMonthlyDates input =
        specMonthlyList input.now (input.now + input.horizonHours.getD 24 * 60 * 60 * 1000)
          input.timeMinutes (normalizeDayOfMonth (some input.dayOfMonth))
          (getFullYear input.now) (getMonth input.now)
          ((input.horizonHours.getD 24).toNat + 3) (input.maxCount.getD 50)) ∧
    generateMonthlyDates ⟨1739577600000, 540, 31, some 50, some 1000⟩ = [1740733200000] := by
  constructor
  · intro input hT
    have hD := (normalizeDayOfMonth_range (some input.dayOfMonth)).1
    have hm := getMonth_range input.now
    unfold generateMonthlyDates specMonthlyList
    exact monthlyLoop_eq_spec input.now _ input.timeMinutes _ hD hT _ _ _ _ hm.1 hm.2
  · decide

/-- Witness for C4: the universal conjunct applied at the concrete February
2025 input, with its hypothesis discharged there. -/
theorem C4_monthly_clamp_witness :
    generateMonthlyDates ⟨1739577600000, 540, 31, some 50, some 1000⟩ =
      specMonthlyList 1739577600000 (1739577600000 + 1000 * 60 * 60 * 1000) 540
        (normalizeDayOfMonth (some 31)) (getFullYear 1739577600000) (getMonth 1739577600000)
        ((1000 : Int).toNat + 3) 50 :=
  C4_monthly_clamp.1 ⟨1739577600000, 540, 31, some 50, some 1000⟩ (by norm_num)

end Scheduler

namespace Scheduler

theorem getD_false_of_any_false (days : List Bool) (h : days.any id = false) (n : Nat) :
    days.getD n false = false := by
  rw [List.getD_eq_getElem?_getD]
  cases he : days[n]? with
  | none => rfl
  | some b =>
    cases b with
    | false => rfl
    | true =>
      have hmem := List.getElem?_mem he
      have hid := List.any_eq_false.mp h true hmem
      simp at hid

theorem isDayActive_false_of_any_false (days : List Bool) (h : days.any id = false)
    (t : Int) : isDayActive t days = false :=
  getD_false_of_any_false days h _

theorem innerWindowLoop_no_active (now horizon interval : Int) (days : List Bool)
    (wEnd : Int) (h : days.any id = false) :
    ∀ (fuel rem : Nat) (c : Int),
      innerWindowLoop now horizon interval days wEnd fuel rem c = [] := by
  intro fuel
  induction fuel with
  | zero => intro rem c; rfl
  | succ n ih =>
    intro rem c
    rw [innerWindowLoop, isDayActive_false_of_any_false days h]
    simp only [Bool.false_eq_true, and_false, if_false]
    split
    · exact ih _ _
    · rfl

theorem fireLoop_no_active (now horizon interval s e : Int) (days : List Bool)
    (allDay spans : Bool) (h : days.any id = false) :
    ∀ (fuel rem : Nat) (cursor : Int),
      fireLoop now horizon interval s e days allDay spans fuel rem cursor = [] := by
  intro fuel
  induction fuel with
  | zero => intro rem cursor; rfl
  | succ n ih =>
    intro rem cursor
    rw [fireLoop]
    dsimp only
    rw [isDayActive_false_of_any_false days h,
      innerWindowLoop_no_active now horizon interval days _ h]
    simp only [Bool.false_eq_true, if_false, List.nil_append, List.length_nil]
    split_ifs <;> first | rfl | exact ih _ _

theorem fallbackLoop_no_active (horizon interval s e : Int) (days : List Bool)
    (allDay spans : Bool) (h : days.any id = false) :
    ∀ (fuel rem : Nat) (cursor : Int),
      fallbackLoop horizon interval s e days allDay spans fuel rem cursor = [] := by
  intro fuel
  induction fuel with
  | zero => intro rem cursor; rfl
  | succ n ih =>
    intro rem cursor
    rw [fallbackLoop]
    have hfalse : ((allDay || isWithinWindow cursor s e spans)
        && isDayActive cursor days) = false := by
      rw [isDayActive_false_of_any_false days h cursor, Bool.and_false]
    rw [hfalse]
    simp only [Bool.false_eq_true, if_false]
    split
    · exact ih _ _
    · rfl

theorem specFallbackList_no_active (now horizon interval s e : Int) (days : List Bool)
    (h : days.any id = false) (fuel maxCount : Nat) :
    specFallbackList now horizon interval s e days fuel maxCount = [] := by
  rw [specFallbackList]
  have hnone : ∀ k ∈ List.range fuel,
      (fun k : Nat =>
        let c := (addMinutes now interval - addMinutes now interval % 60000) +
          (k : Int) * (interval * 60000)
        if c ≤ horizon ∧
            (((s == e) || isWithinWindow c s e (decide (e < s)))
              && isDayActive c days) = true then
          some c
        else none) k = none := by
    intro k hk
    dsimp only
    rw [isDayActive_false_of_any_false days h, Bool.and_false]
    simp
  rw [List.filterMap_eq_nil_iff.mpr hnone]
  simp

theorem fallbackLoop_eq_spec (horizon interval s e : Int) (days : List Bool)
    (allDay spans : Bool) (hivl : 1 ≤ interval) :
    ∀ (fuel rem : Nat) (cursor : Int),
      fallbackLoop horizon interval s e days allDay spans fuel rem cursor =
        ((List.range fuel).filterMap fun k : Nat =>
          if cursor + (k : Int) * (interval * 60000) ≤ horizon ∧
              ((allDay ||
                isWithinWindow (cursor + (k : Int) * (interval * 60000)) s e spans)
                && isDayActive (cursor + (k : Int) * (interval * 60000)) days) = true then
            some (cursor + (k : Int) * (interval * 60000))
          else none).take rem := by
  intro fuel
  induction fuel with
  | zero => intro rem cursor; simp [fallbackLoop]
  | succ n ih =>
    intro rem cursor
    set F : Nat → Option Int := fun k =>
      if cursor + (k : Int) * (interval * 60000) ≤ horizon ∧
          ((allDay || isWithinWindow (cursor + (k : Int) * (interval * 60000)) s e spans)
            && isDayActive (cursor + (k : Int) * (interval * 60000)) days) = true then
        some (cursor + (k : Int) * (interval * 60000))
      else none with hF
    have hc0 : cursor + ((0 : Nat) : Int) * (interval * 60000) = cursor := by
      push_cast; ring
    have hF0 : F 0 = if cursor ≤ horizon ∧
        ((allDay || isWithinWindow cursor s e spans) && isDayActive cursor days) = true
        then some cursor else none := by
      rw [hF]
      dsimp only
      rw [hc0]
    have hshift : (F ∘ Nat.succ) = fun k : Nat =>
        if addMinutes cursor interval + (k : Int) * (interval * 60000) ≤ horizon ∧
            ((allDay || isWithinWindow
                (addMinutes cursor interval + (k : Int) * (interval * 60000)) s e spans)
              && isDayActive
                (addMinutes cursor interval + (k : Int) * (interval * 60000)) days) = true then
          some (addMinutes cursor interval + (k : Int) * (interval * 60000))
        else none := by
      funext k
      simp only [Function.comp, hF]
      have harg : cursor + ((Nat.succ k : Nat) : Int) * (interval * 60000) =
          addMinutes cursor interval + (k : Int) * (interval * 60000) := by
        simp only [addMinutes]
        push_cast
        ring
      rw [harg]
    rw [fallbackLoop]
    by_cases hguard : 0 < rem ∧ cursor ≤ horizon
    · rw [if_pos hguard]
      obtain ⟨rem', hrem⟩ : ∃ rem', rem = rem' + 1 := ⟨rem - 1, by omega⟩
      subst hrem
      by_cases hpush : ((allDay || isWithinWindow cursor s e spans)
          && isDayActive cursor days) = true
      · rw [if_pos hpush, List.range_succ_eq_map,
          List.filterMap_cons_some (by rw [hF0]; exact if_pos ⟨hguard.2, hpush⟩),
          List.filterMap_map, hshift, List.take_succ_cons]
        have hsub : rem' + 1 - 1 = rem' := by omega
        rw [hsub]
        congr 1
        exact ih rem' (addMinutes cursor interval)
      · rw [if_neg hpush, List.range_succ_eq_map,
          List.filterMap_cons_none (by rw [hF0]; exact if_neg fun hx => hpush hx.2),
          List.filterMap_map, hshift]
        exact ih (rem' + 1) (addMinutes cursor interval)
    · rw [if_neg hguard]
      rcases Nat.eq_zero_or_pos rem with hrem | hrem
      · subst hrem
        simp
      · have hhor : ¬ cursor ≤ horizon := fun hc => hguard ⟨hrem, hc⟩
        have hnone : ∀ k ∈ List.range (n + 1), F k = none := by
          intro k hk
          rw [hF]
          refine if_neg ?_
          rintro ⟨hle, -⟩
          have hstep : (0 : Int) ≤ interval * 60000 :=
            mul_nonneg (by linarith) (by norm_num)
          have hks : (0 : Int) ≤ (k : Int) * (interval * 60000) :=
            mul_nonneg (Int.natCast_nonneg k) hstep
          omega
        rw [List.filterMap_eq_nil_iff.mpr hnone]
        simp

end Scheduler

namespace Scheduler

/-- **C7.** For every WithinDay rule: if the window-based primary search
(`fireLoop` from `now`) produces zero instants, `generateFireDates` equals the
interval-only sweep described by the spec (`specFallbackList`: start at
`now + interval` with sub-minute precision discarded, step by the interval,
keep instants within the horizon that are inside the nominal window — or
all-day — and on an active weekday, up to `maxCount`); if the primary search
produces at least one instant, the fallback is not used and the result is the
primary list. -/
theorem C7_fallback_dichotomy (input : ScheduleInput) :
    let interval := clamp input.intervalMinutes MIN_INTERVAL MAX_INTERVAL
    let startMinutes := normalizeMinutes input.startMinutesFromMidnight
    let endMinutes := normalizeMinutes input.endMinutesFromMidnight
    let maxCount := input.maxCount.getD 50
    let horizonHours := input.horizonHours.getD 24
    let activeDays := normalizeDaysOfWeek input.daysOfWeek
    let horizon := input.now + horizonHours * 60 * 60 * 1000
    let primary := fireLoop input.now horizon interval startMinutes endMinutes activeDays
      (startMinutes == endMinutes) (decide (endMinutes < startMinutes))
      (60 * horizonHours.toNat + 4) maxCount input.now
    (primary = [] →
      generateFireDates input =
        specFallbackList input.now horizon interval startMinutes endMinutes activeDays
          (60 * horizonHours.toNat + 4) maxCount) ∧
    (primary ≠ [] → generateFireDates input = primary) := by
  intro interval startMinutes endMinutes maxCount horizonHours activeDays horizon primary
  have hivl : 1 ≤ interval :=
    le_trans (by norm_num) (clamp_interval_range input.intervalMinutes).1
  have hgen : generateFireDates input =
      if !activeDays.any id then []
      else if primary = [] then
        generateFallbackDates
          ⟨input.now, interval, startMinutes, endMinutes, activeDays, maxCount, horizonHours⟩
      else primary := rfl
  by_cases hany : activeDays.any id = true
  · have hfb : generateFallbackDates
        ⟨input.now, interval, startMinutes, endMinutes, activeDays, maxCount, horizonHours⟩ =
        specFallbackList input.now horizon interval startMinutes endMinutes activeDays
          (60 * horizonHours.toNat + 4) maxCount := by
      unfold generateFallbackDates specFallbackList
      exact fallbackLoop_eq_spec horizon interval startMinutes endMinutes activeDays
        (startMinutes == endMinutes) (decide (endMinutes < startMinutes)) hivl
        (60 * horizonHours.toNat + 4) maxCount _
    constructor
    · intro hp
      rw [hgen, hany]
      simp only [Bool.not_true, Bool.false_eq_true, if_false]
      rw [if_pos hp]
      exact hfb
    · intro hp
      rw [hgen, hany]
      simp only [Bool.not_true, Bool.false_eq_true, if_false]
      rw [if_neg hp]
  · have hanyf : activeDays.any id = false := by
      cases hx : activeDays.any id
      · rfl
      · exact absurd hx hany
    have hprim : primary = [] :=
      fireLoop_no_active input.now horizon interval startMinutes endMinutes activeDays
        (startMinutes == endMinutes) (decide (endMinutes < startMinutes)) hanyf _ _ _
    constructor
    · intro hp
      rw [hgen, hanyf]
      simp only [Bool.not_false, eq_self_iff_true, if_true]
      exact (specFallbackList_no_active input.now horizon interval startMinutes endMinutes
        activeDays hanyf _ _).symm
    · intro hp
      exact absurd hprim hp

/-- Witness for C7: at Monday 2024-01-01 04:00 with window 02:00–03:00,
interval 15 and a one-hour horizon, the primary search is empty and the result
equals the spec's fallback sweep; the first conjunct is applied with its
hypothesis discharged concretely. -/
theorem C7_fallback_dichotomy_witness :
    generateFireDates ⟨1704081600000, 15, 120, 180, none, none, some 1⟩ =
      specFallbackList 1704081600000 (1704081600000 + 1 * 60 * 60 * 1000)
        (clamp 15 MIN_INTERVAL MAX_INTERVAL) (normalizeMinutes 120) (normalizeMinutes 180)
        (normalizeDaysOfWeek none) (60 * (1 : Int).toNat + 4) 50 :=
  (C7_fallback_dichotomy ⟨1704081600000, 15, 120, 180, none, none, some 1⟩).1 (by decide)

end Scheduler

namespace Scheduler

theorem alignToInterval_allday_mod (cursor interval : Int) (hivl : 1 ≤ interval)
    (hdvd : interval ∣ 1440) (hc : cursor % 60000 = 0) :
    alignToInterval (startOfDay cursor) cursor interval % (interval * 60000) = 0 := by
  obtain ⟨d, hd⟩ := hdvd
  have hq : cursor % 86400000 = 60000 * (cursor % 86400000 / 60000) := by omega
  set q := cursor % 86400000 / 60000 with hqdef
  have hdiff : max 0 ((cursor - startOfDay cursor) / 60000) = q := by
    simp only [startOfDay]
    omega
  have hfold : alignToInterval (startOfDay cursor) cursor interval =
      cursor + (if q % interval = 0 then 0 else interval - q % interval) * 60000 := by
    rw [alignToInterval]
    rw [hdiff]
    rfl
  rw [hfold]
  set rq := q % interval with hrqdef
  by_cases hrem : rq = 0
  · rw [if_pos hrem]
    obtain ⟨j, hj⟩ : interval ∣ q := Int.dvd_of_emod_eq_zero (by rw [hrqdef] at hrem; exact hrem)
    have hsplit : cursor + 0 * 60000 =
        (interval * 60000) * (d * (cursor / 86400000) + j) := by
      have hexp : (interval * 60000) * (d * (cursor / 86400000) + j) =
          interval * d * 60000 * (cursor / 86400000) + 60000 * (interval * j) := by ring
      rw [hexp, ← hd, ← hj]
      have h2 := Int.ediv_add_emod cursor 86400000
      omega
    rw [hsplit]
    exact Int.mul_emod_right _ _
  · rw [if_neg hrem]
    have hdq : interval ∣ (q + (interval - rq)) := by
      have h3 := Int.ediv_add_emod q interval
      refine ⟨q / interval + 1, ?_⟩
      linear_combination -h3
    obtain ⟨j, hj⟩ := hdq
    have hsplit : cursor + (interval - rq) * 60000 =
        (interval * 60000) * (d * (cursor / 86400000) + j) := by
      have hexp : (interval * 60000) * (d * (cursor / 86400000) + j) =
          interval * d * 60000 * (cursor / 86400000) + 60000 * (interval * j) := by ring
      rw [hexp, ← hd, ← hj]
      have h2 := Int.ediv_add_emod cursor 86400000
      omega
    rw [hsplit]
    exact Int.mul_emod_right _ _

theorem mod_sub_startOfDay (t m : Int) (hdvd : m ∣ 86400000) (h : t % m = 0) :
    (t - startOfDay t) % m = 0 := by
  have h1 : t - startOfDay t = t % 86400000 := by
    simp only [startOfDay]
    ring
  rw [h1, Int.emod_emod_of_dvd t hdvd, h]

theorem fireLoop_allday_aligned (now horizon interval s e : Int) (days : List Bool)
    (spans : Bool) (hivl : 1 ≤ interval) (hdvd : interval ∣ 1440) :
    ∀ (fuel rem : Nat) (cursor : Int), cursor % 60000 = 0 →
      ∀ t ∈ fireLoop now horizon interval s e days true spans fuel rem cursor,
        t % (interval * 60000) = 0 := by
  intro fuel
  induction fuel with
  | zero => intro rem cursor hc t ht; simp [fireLoop] at ht
  | succ n ih =>
    intro rem cursor hc t ht
    rw [fireLoop] at ht
    dsimp only at ht
    by_cases hguard : 0 < rem ∧ cursor ≤ horizon
    · rw [if_pos hguard] at ht
      simp only [eq_self_iff_true, if_true] at ht
      set c0 := alignToInterval (startOfDay cursor) cursor interval with hc0def
      set cand := if c0 ≤ now then addMinutes c0 interval else c0 with hcanddef
      have hc0m : c0 % (interval * 60000) = 0 :=
        alignToInterval_allday_mod cursor interval hivl hdvd hc
      have hcandm : cand % (interval * 60000) = 0 := by
        rw [hcanddef]
        split
        · show (c0 + interval * 60000) % (interval * 60000) = 0
          exact Int.emod_eq_zero_of_dvd
            (dvd_add (Int.dvd_of_emod_eq_zero hc0m) dvd_rfl)
        · exact hc0m
      have hcand60 : cand % 60000 = 0 := by
        have hdvd2 : (60000 : Int) ∣ cand :=
          dvd_trans ⟨interval, by ring⟩ (Int.dvd_of_emod_eq_zero hcandm)
        exact Int.emod_eq_zero_of_dvd hdvd2
      have hnext60 : addMinutes cand interval % 60000 = 0 := by
        show (cand + interval * 60000) % 60000 = 0
        omega
      split at ht
      · simp at ht
      · split at ht
        · rcases List.mem_cons.mp ht with rfl | ht'
          · exact hcandm
          · exact ih _ _ hnext60 t ht'
        · exact ih _ _ hnext60 t ht
    · rw [if_neg hguard] at ht
      simp at ht

end Scheduler

namespace Scheduler

/-- Counterexample to C8 as stated: with `now` at Monday 2024-01-01 08:10:30
(a sub-minute instant), interval 60, start = end = 0 and all weekdays active,
the first emitted instant is 09:00:30, which does not lie on a
midnight-anchored 60-minute boundary — the grid inherits `now`'s sub-minute
offset instead of being aligned to midnight regardless of `now`. -/
theorem C8_counterexample :
    (generateFireDates ⟨1704096630000, 60, 0, 0, none, none, none⟩).head? =
        some 1704099630000 ∧
    (1704099630000 - startOfDay 1704099630000) % (60 * 60000) ≠ 0 := by
  decide

/-- **C8** (amended).  For an all-day WithinDay rule whose `now` has
whole-minute precision and whose clamped interval divides 24 hours, every
instant produced by the primary (non-fallback) path lands on a
midnight-anchored interval boundary; concretely, for intervalMinutes 60,
start = end = 0, all weekdays active and now = Monday 2024-01-01 08:10:00
with a 24-hour horizon, the result is exactly the hourly instants
09:00, 10:00, …, through 08:00 the next day. -/
theorem C8_allday_midnight_alignment :
    (∀ input : ScheduleInput,
      normalizeMinutes input.startMinutesFromMidnight =
        normalizeMinutes input.endMinutesFromMidnight →
      input.now % 60000 = 0 →
      clamp input.intervalMinutes MIN_INTERVAL MAX_INTERVAL ∣ 1440 →
      fireLoop input.now (input.now + input.horizonHours.getD 24 * 60 * 60 * 1000)
          (clamp input.intervalMinutes MIN_INTERVAL MAX_INTERVAL)
          (normalizeMinutes input.startMinutesFromMidnight)
          (normalizeMinutes input.endMinutesFromMidnight)
          (normalizeDaysOfWeek input.daysOfWeek)
          (normalizeMinutes input.startMinutesFromMidnight ==
            normalizeMinutes input.endMinutesFromMidnight)
          (decide (normalizeMinutes input.endMinutesFromMidnight <
            normalizeMinutes input.startMinutesFromMidnight))
          (60 * (input.horizonHours.getD 24).toNat + 4) (input.maxCount.getD 50)
          input.now ≠ [] →
      ∀ t ∈ generateFireDates input,
        (t - startOfDay t) %
          (clamp input.intervalMinutes MIN_INTERVAL MAX_INTERVAL * 60000) = 0) ∧
    generateFireDates ⟨1704096600000, 60, 0, 0, none, none, none⟩ =
      (List.range' 9 24).map fun k : Nat => (1704067200000 : Int) + (k : Int) * 3600000 := by
  constructor
  · intro input hall hnow hdvd hne t ht
    set interval := clamp input.intervalMinutes MIN_INTERVAL MAX_INTERVAL with hidef
    set sm := normalizeMinutes input.startMinutesFromMidnight with hsmdef
    set em := normalizeMinutes input.endMinutesFromMidnight with hemdef
    set maxCount := input.maxCount.getD 50 with hmcdef
    set horizonHours := input.horizonHours.getD 24 with hhhdef
    set activeDays := normalizeDaysOfWeek input.daysOfWeek with haddef
    set horizon := input.now + horizonHours * 60 * 60 * 1000 with hhordef
    set primary := fireLoop input.now horizon interval sm em activeDays
      (sm == em) (decide (em < sm)) (60 * horizonHours.toNat + 4) maxCount input.now
      with hprimdef
    have hivl : 1 ≤ interval :=
      le_trans (by norm_num) (clamp_interval_range input.intervalMinutes).1
    have hdvd86 : interval * 60000 ∣ 86400000 := by
      obtain ⟨d, hd⟩ := hdvd
      exact ⟨d, by linear_combination (60000 : Int) * hd⟩
    by_cases hany : activeDays.any id = true
    · have hgen : generateFireDates input =
          if !activeDays.any id then []
          else if primary = [] then
            generateFallbackDates
              ⟨input.now, interval, sm, em, activeDays, maxCount, horizonHours⟩
          else primary := rfl
      rw [hgen, hany] at ht
      simp only [Bool.not_true, Bool.false_eq_true, if_false] at ht
      rw [if_neg hne] at ht
      have hb : (sm == em) = true := by simpa using hall
      rw [hprimdef, hb] at ht
      have hmod := fireLoop_allday_aligned input.now horizon interval sm em activeDays
        (decide (em < sm)) hivl hdvd _ _ input.now hnow t ht
      exact mod_sub_startOfDay t (interval * 60000) hdvd86 hmod
    · exact absurd
        (fireLoop_no_active input.now horizon interval sm em activeDays (sm == em)
          (decide (em < sm)) (Bool.eq_false_iff.mpr hany ▸ rfl) _ _ _) hne
  · decide

/-- Witness for C8: the amended alignment applied at the concrete Monday
08:10 input, discharging every hypothesis there; the instant 09:00 is in the
output and is midnight-aligned. -/
theorem C8_allday_midnight_alignment_witness :
    ((1704099600000 : Int) - startOfDay 1704099600000) %
      (clamp 60 MIN_INTERVAL MAX_INTERVAL * 60000) = 0 :=
  C8_allday_midnight_alignment.1 ⟨1704096600000, 60, 0, 0, none, none, none⟩ rfl
    (by decide) (by decide) (by decide) 1704099600000 (by decide)

end Scheduler
